import Mathlib

/-!
Verification development for the livelink link-reconciliation engine
(TypeScript source: the engine in the file holding `processLink`,
`generateLinkGroups`, the three `inquire…Action` closures and the three
run counters).  The filesystem is modelled per-path as a partial map from
path strings to entities; prompts are modelled by an oracle stream of
answers indexed by the number of prompts issued so far; the three
reassignable closures become three optional sticky fields; the mutable
counters become a statistics record threaded through the run.
-/

namespace LiveLink

/-! ## Path model (node `path` module, POSIX flavour)

String splitting, joining and lowercasing are implemented by structural
recursion over the underlying character lists so that every definition
evaluates inside the kernel; each matches the JavaScript library function
it models on the engine's inputs. -/

/-- JavaScript `s.split("/")` on the character list. -/
def splitCharList (sep : Char) : List Char → List (List Char)
  | [] => [[]]
  | x :: xs =>
    match splitCharList sep xs with
    | [] => [[x]]
    | h :: t => if x = sep then [] :: h :: t else (x :: h) :: t

/-- JavaScript `s.split(path.sep)` (POSIX separator). -/
def splitOnSlash (s : String) : List String :=
  (splitCharList '/' s.data).map String.mk

/-- Joining segments with the POSIX separator (inverse of the split). -/
def intercalateSlash : List String → String
  | [] => ""
  | h :: t => t.foldl (fun acc s => acc ++ "/" ++ s) h

/-- ASCII lowercasing (what `filenamify(...).toLowerCase()` amounts to on
the engine's path-derived names). -/
def toLowerStr (s : String) : String := String.mk (s.data.map Char.toLower)

/-- POSIX `path.isAbsolute`. -/
def isAbsolutePath (p : String) : Bool :=
  match p.data with
  | [] => false
  | c :: _ => c = '/'

/-- Segment normalization used by `path.resolve`: drops empty and `"."`
segments and lets `".."` pop the previous segment (staying at the root when
there is nothing to pop). -/
def normSegs (segs : List String) : List String :=
  segs.foldl (fun acc s => if s = ".." then acc.dropLast else acc ++ [s]) []

/-- Normalization of an absolute POSIX path string, as `path.resolve`
performs after joining. -/
def normalizeAbs (p : String) : String :=
  "/" ++ intercalateSlash
    (normSegs ((splitOnSlash p).filter (fun s => s != "" && s != ".")))

/-- POSIX `path.dirname` for the path shapes the engine produces (no
trailing separators). -/
def dirname (p : String) : String :=
  let parts := splitOnSlash p
  if parts.length ≤ 1 then "."
  else
    let d := intercalateSlash parts.dropLast
    if d = "" then "/" else d

/-- POSIX `path.join` for the already-normalized operands the engine joins
(`path.join(group.syncDir, linkName)` and `path.join(rootDir, name)`). -/
def joinPath (a b : String) : String := a ++ "/" ++ b

/-- Resolution of a symlink's stored target string against the link's own
location, as `processLink` does: an absolute stored target is kept verbatim,
a relative one is resolved via `path.resolve(path.dirname(linkPath), t)`. -/
def resolveLinkTarget (linkPath raw : String) : String :=
  if isAbsolutePath raw then raw
  else normalizeAbs (dirname linkPath ++ "/" ++ raw)

/-! ## Filesystem model -/

/-- An entity occupying a path: a symbolic link storing its raw target
string, or a physical file or directory.  Contents of files and directory
trees are not modelled; each path is tracked independently. -/
inductive Entity where
  | symlink (raw : String)
  | file
  | dir
deriving DecidableEq

/-- What `fs.statSync` reports after following links. -/
inductive EntityKind where
  | file
  | dir
deriving DecidableEq

/-- A filesystem is a partial map from (string) paths to entities;
`none` means nothing exists at the path (so `lstat` throws there). -/
def FS := String → Option Entity

/-- Write an entity at a path. -/
def FS.update (f : FS) (p : String) (e : Entity) : FS :=
  fun q => if q = p then some e else f q

/-- Remove whatever is at a path (`fs.removeSync` on the engine's inputs,
which are single non-directory entries). -/
def FS.erase (f : FS) (p : String) : FS :=
  fun q => if q = p then none else f q

/-- Move the entity at `src` to `dst` (`fs.renameSync` / `fs.moveSync`;
the engine only invokes these when `src` is occupied). -/
def FS.rename (f : FS) (src dst : String) : FS :=
  match f src with
  | none => f
  | some e => (f.erase src).update dst e

/-- Fuel-bounded symlink following for `fs.statSync`: `none` models the
call throwing (no entry, or a symlink chain that never reaches a physical
entity within the fuel — `ELOOP` in practice). -/
def statKind (f : FS) : Nat → String → Option EntityKind
  | 0, _ => none
  | fuel + 1, p =>
    match f p with
    | none => none
    | some Entity.file => some EntityKind.file
    | some Entity.dir => some EntityKind.dir
    | some (Entity.symlink raw) => statKind f fuel (resolveLinkTarget p raw)

/-- `fs.statSync` kind with the usual symlink-chain bound. -/
def statSyncKind (f : FS) (p : String) : Option EntityKind :=
  statKind f 40 p

/-- `fs.existsSync`, which follows symlinks (a dangling link "does not
exist"). -/
def existsSyncB (f : FS) (p : String) : Bool :=
  (statSyncKind f p).isSome

/-! ## Decisions, statistics, engine state -/

/-- The source's `ChoiceOption` enum — the only four decision values the
engine knows. -/
inductive ChoiceOption where
  | Skip
  | SkipAll
  | Replace
  | ReplaceAll
deriving DecidableEq

/-- The three run counters (`totalCreated`, `totalSkippedByChoice`,
`totalSkippedExisting` in the source). -/
structure Stats where
  totalCreated : Nat
  totalSkippedByChoice : Nat
  totalSkippedExisting : Nat
deriving DecidableEq

/-- The all-zero counters at run start. -/
def Stats.zero : Stats := ⟨0, 0, 0⟩

/-- Sticky "apply to all" memory: one optional recorded decision per
conflict category, standing for the three reassignable
`inquire…Action` closures. -/
structure Sticky where
  linkAction : Option ChoiceOption
  syncEntityAction : Option ChoiceOption
  targetEntityAction : Option ChoiceOption
deriving DecidableEq

/-- No sticky decision recorded yet (the pristine closures). -/
def Sticky.none0 : Sticky := ⟨none, none, none⟩

/-- Engine state threaded through the run: filesystem, counters, sticky
memory, and the number of prompts issued so far (the index into the
answer oracle). -/
structure PState where
  fsys : FS
  stats : Stats
  sticky : Sticky
  prompt : Nat

/-- A run-aborting exception: `statFailed` models an `fs.statSync` call
throwing, `enoent` an `ENOENT` from `fs.ensureSymlink` (missing symlink
target) or `fs.renameSync` (missing source or missing destination parent
directory). -/
inductive PErr where
  | statFailed
  | enoent
deriving DecidableEq

/-- Which counter a processed link incremented. -/
inductive Outcome where
  | created
  | alreadyCorrect
  | skippedByChoice
deriving DecidableEq

/-! ## The fallible filesystem mutations -/

/-- Model of fs-extra's `ensureSymlink(srcpath, dstpath)`.  Its
`symlinkPaths` step lstats an absolute `srcpath` and throws `ENOENT` when
it does not exist — `ensureSymlink` cannot create a dangling link to a
missing absolute target.  For a relative `srcpath` it first tests
`existsSync(path.join(path.dirname(dstpath), srcpath))` and falls back to
lstatting `srcpath` itself (a cwd-relative key in this model), throwing
`ENOENT` when both fail.  On success it creates the link at `dstpath`
storing `srcpath` verbatim (parent directories of `dstpath` are created;
directory structure is not tracked by the flat map). -/
def ensureSymlinkM (f : FS) (targetPath linkPath : String) : Except PErr FS :=
  if isAbsolutePath targetPath then
    match f targetPath with
    | none => Except.error PErr.enoent
    | some _ => Except.ok (f.update linkPath (Entity.symlink targetPath))
  else if existsSyncB f (normalizeAbs (dirname linkPath ++ "/" ++ targetPath)) then
    Except.ok (f.update linkPath (Entity.symlink targetPath))
  else
    match f targetPath with
    | none => Except.error PErr.enoent
    | some _ => Except.ok (f.update linkPath (Entity.symlink targetPath))

/-- Model of node's `fs.renameSync(src, dst)`: throws `ENOENT` when the
source does not exist or the destination's parent directory does not
exist (`renameSync` creates no directories).  A directory exists in the
flat model only as an explicit `dir` entry; in particular the engine's
rename destination `'.livelink-' + targetPath + '-original'` is, for an
absolute target path, a cwd-relative path whose parent directory never
exists. -/
def renameSyncM (f : FS) (src dst : String) : Except PErr FS :=
  match f src with
  | none => Except.error PErr.enoent
  | some e =>
    if statSyncKind f (dirname dst) = some EntityKind.dir then
      Except.ok ((f.erase src).update dst e)
    else Except.error PErr.enoent

/-! ## The three inquiries

Each inquiry mirrors one `inquire…Action` closure: if a sticky decision was
recorded the rebound closure returns it immediately (no prompt, no stat);
otherwise the pristine closure first `statSync`s the path it names in its
message (throwing if that fails), then prompts, and records the answer as
sticky when it is an "apply to all" one. -/

/-- Choices offered by `inquireExistingLinkToAnotherTargetAction`. -/
def existingLinkChoices : List ChoiceOption :=
  [ChoiceOption.Skip, ChoiceOption.SkipAll,
   ChoiceOption.Replace, ChoiceOption.ReplaceAll]

/-- Choices offered by `inquireExistingSyncEntityAction`. -/
def existingSyncEntityChoices : List ChoiceOption :=
  [ChoiceOption.Skip, ChoiceOption.SkipAll,
   ChoiceOption.Replace, ChoiceOption.ReplaceAll]

/-- Choices offered by `inquireExistingTargetEntityAction`. -/
def existingTargetEntityChoices : List ChoiceOption :=
  [ChoiceOption.Skip, ChoiceOption.SkipAll,
   ChoiceOption.Replace, ChoiceOption.ReplaceAll]

/-- Whether an answer is recorded as sticky (`foreverAnswers` in the
source). -/
def isForever (a : ChoiceOption) : Bool :=
  a = ChoiceOption.ReplaceAll || a = ChoiceOption.SkipAll

/-- `inquireExistingLinkToAnotherTargetAction`: stats the wrong link's
current target (to name its type in the message) before prompting. -/
def inquireExistingLinkToAnotherTargetAction (oracle : Nat → ChoiceOption)
    (s : PState) (currentTarget : String) :
    Except PErr (ChoiceOption × PState) :=
  match s.sticky.linkAction with
  | some a => Except.ok (a, s)
  | none =>
    match statSyncKind s.fsys currentTarget with
    | none => Except.error PErr.statFailed
    | some _ =>
      Except.ok (oracle s.prompt,
        { s with
            sticky :=
              if isForever (oracle s.prompt) then
                { s.sticky with linkAction := some (oracle s.prompt) }
              else s.sticky,
            prompt := s.prompt + 1 })

/-- `inquireExistingSyncEntityAction`: stats the occupying entity at the
link path before prompting. -/
def inquireExistingSyncEntityAction (oracle : Nat → ChoiceOption)
    (s : PState) (linkPath : String) :
    Except PErr (ChoiceOption × PState) :=
  match s.sticky.syncEntityAction with
  | some a => Except.ok (a, s)
  | none =>
    match statSyncKind s.fsys linkPath with
    | none => Except.error PErr.statFailed
    | some _ =>
      Except.ok (oracle s.prompt,
        { s with
            sticky :=
              if isForever (oracle s.prompt) then
                { s.sticky with syncEntityAction := some (oracle s.prompt) }
              else s.sticky,
            prompt := s.prompt + 1 })

/-- `inquireExistingTargetEntityAction`: stats the occupying entity at the
target path before prompting. -/
def inquireExistingTargetEntityAction (oracle : Nat → ChoiceOption)
    (s : PState) (targetPath : String) :
    Except PErr (ChoiceOption × PState) :=
  match s.sticky.targetEntityAction with
  | some a => Except.ok (a, s)
  | none =>
    match statSyncKind s.fsys targetPath with
    | none => Except.error PErr.statFailed
    | some _ =>
      Except.ok (oracle s.prompt,
        { s with
            sticky :=
              if isForever (oracle s.prompt) then
                { s.sticky with targetEntityAction := some (oracle s.prompt) }
              else s.sticky,
            prompt := s.prompt + 1 })

/-! ## processLink -/

/-- Marked name `'.livelink-' + targetPath + '-original'` that
`processLink` renames a pre-existing target entity to. -/
def markedOriginal (targetPath : String) : String :=
  ".livelink-" ++ targetPath ++ "-original"

/-- The engine's per-link reconciliation, translated branch for branch
from `processLink`:
lstat the link path (absent → fall through to creation); a symlink whose
resolved current target equals the desired target counts as existing; a
symlink pointing elsewhere asks the link inquiry and on replace removes
the link then falls through to creation; a physical entity asks the
sync-entity inquiry, on replace optionally resolves the target-occupied
inquiry (renaming the pre-existing target aside on replace via
`renameSyncM`, skipping otherwise) and then moves the entity to the
target (`fs.moveSync`, which creates destination parents) before falling
through to creation.  Creation is `fs.ensureSymlink(targetPath,
linkPath)` — which throws on a missing target — followed by
`totalCreated++`; a thrown exception aborts the run uncaught. -/
def processLink (oracle : Nat → ChoiceOption)
    (linkPath targetPath : String) (s : PState) :
    Except PErr (PState × Outcome) :=
  match s.fsys linkPath with
  | none =>
    -- no entity at the link location: create
    match ensureSymlinkM s.fsys targetPath linkPath with
    | Except.error e => Except.error e
    | Except.ok f2 =>
      Except.ok
        ({ s with fsys := f2,
                  stats := { s.stats with
                    totalCreated := s.stats.totalCreated + 1 } },
         Outcome.created)
  | some (Entity.symlink raw) =>
    if resolveLinkTarget linkPath raw = targetPath then
      -- already links to the desired target
      Except.ok
        ({ s with stats := { s.stats with
            totalSkippedExisting := s.stats.totalSkippedExisting + 1 } },
         Outcome.alreadyCorrect)
    else
      -- links to a different target than desired
      match inquireExistingLinkToAnotherTargetAction oracle s
          (resolveLinkTarget linkPath raw) with
      | Except.error e => Except.error e
      | Except.ok (action, s1) =>
        if action = ChoiceOption.Replace ∨ action = ChoiceOption.ReplaceAll then
          -- fs.removeSync(linkPath), then the final ensureSymlink
          match ensureSymlinkM (s1.fsys.erase linkPath) targetPath linkPath with
          | Except.error e => Except.error e
          | Except.ok f2 =>
            Except.ok
              ({ s1 with
                  fsys := f2,
                  stats := { s1.stats with
                    totalCreated := s1.stats.totalCreated + 1 } },
               Outcome.created)
        else
          Except.ok
            ({ s1 with stats := { s1.stats with
                totalSkippedByChoice := s1.stats.totalSkippedByChoice + 1 } },
             Outcome.skippedByChoice)
  | some _ =>
    -- a physical file or directory occupies the link location
    match inquireExistingSyncEntityAction oracle s linkPath with
    | Except.error e => Except.error e
    | Except.ok (action, s1) =>
      if action = ChoiceOption.Replace ∨ action = ChoiceOption.ReplaceAll then
        -- move the entity at the link location to the target location,
        -- then create a symbolic link in place of it to the target
        if existsSyncB s1.fsys targetPath then
          match inquireExistingTargetEntityAction oracle s1 targetPath with
          | Except.error e => Except.error e
          | Except.ok (targetAction, s2) =>
            if targetAction = ChoiceOption.Replace ∨
                targetAction = ChoiceOption.ReplaceAll then
              -- fs.renameSync(targetPath, '.livelink-'+targetPath+'-original')
              match renameSyncM s2.fsys targetPath (markedOriginal targetPath) with
              | Except.error e => Except.error e
              | Except.ok f1 =>
                -- fs.moveSync(linkPath, targetPath), then ensureSymlink
                match ensureSymlinkM (f1.rename linkPath targetPath)
                    targetPath linkPath with
                | Except.error e => Except.error e
                | Except.ok f3 =>
                  Except.ok
                    ({ s2 with
                        fsys := f3,
                        stats := { s2.stats with
                          totalCreated := s2.stats.totalCreated + 1 } },
                     Outcome.created)
            else
              Except.ok
                ({ s2 with stats := { s2.stats with
                    totalSkippedByChoice :=
                      s2.stats.totalSkippedByChoice + 1 } },
                 Outcome.skippedByChoice)
        else
          match ensureSymlinkM (s1.fsys.rename linkPath targetPath)
              targetPath linkPath with
          | Except.error e => Except.error e
          | Except.ok f2 =>
            Except.ok
              ({ s1 with
                  fsys := f2,
                  stats := { s1.stats with
                    totalCreated := s1.stats.totalCreated + 1 } },
               Outcome.created)
      else
        Except.ok
          ({ s1 with stats := { s1.stats with
              totalSkippedByChoice := s1.stats.totalSkippedByChoice + 1 } },
           Outcome.skippedByChoice)

/-- The `LinkState` classification implicit in `processLink`'s branching
(the spec's LinkStateClassifier): what currently occupies a link path,
relative to the desired target. -/
inductive LinkState where
  | Absent
  | SymlinkCorrect
  | SymlinkIncorrect (currentTarget : String)
  | PhysicalEntity
deriving DecidableEq

/-- Classify a link path exactly as `processLink` discriminates it. -/
def classifyLink (f : FS) (linkPath targetPath : String) : LinkState :=
  match f linkPath with
  | none => LinkState.Absent
  | some (Entity.symlink raw) =>
    if resolveLinkTarget linkPath raw = targetPath then LinkState.SymlinkCorrect
    else LinkState.SymlinkIncorrect (resolveLinkTarget linkPath raw)
  | some _ => LinkState.PhysicalEntity

/-! ## Group generation -/

/-- Lodash `.uniq()` with an accumulator of already-seen elements: keeps
the first occurrence of each element, in order. -/
def jsUniqAux (seen : List String) : List String → List String
  | [] => []
  | x :: xs =>
    if x ∈ seen then jsUniqAux seen xs
    else x :: jsUniqAux (x :: seen) xs

/-- Lodash `.uniq()`: deduplication preserving first-seen order. -/
def jsUniq (l : List String) : List String := jsUniqAux [] l

/-- The source's `isSameOrSubpath(subpath, parent)`: splits both paths on
the separator (after trimming one trailing separator) and tests that every
indexed segment of `parent` equals the corresponding segment of `subpath`
— i.e. that `subpath` is `parent` itself or nested below it. -/
def isSameOrSubpath (subpath parent : String) : Bool :=
  let noTrailingSep := fun (p : String) =>
    if p.data.getLast? = some '/' then String.mk p.data.dropLast else p
  let parentParts := splitOnSlash (noTrailingSep parent)
  let subpathParts := splitOnSlash (noTrailingSep subpath)
  parentParts.enum.all (fun ia => subpathParts.get? ia.1 == some ia.2)

/-- JavaScript object update via spread (`{...acc, [k]: v}`): an existing
key keeps its position and gets the new value, a new key is appended. -/
def jsObjInsert (obj : List (String × String)) (k v : String) :
    List (String × String) :=
  if obj.any (fun kv => kv.1 = k) then
    obj.map (fun kv => if kv.1 = k then (k, v) else kv)
  else obj ++ [(k, v)]

/-- UTF-16 code units of a string (surrogate pairs for astral
codepoints), the units JavaScript's default sort comparator compares. -/
def utf16Units (s : String) : List Nat :=
  s.data.foldr
    (fun c acc =>
      let n := c.toNat
      (if n < 0x10000 then [n]
       else [0xD800 + (n - 0x10000) / 0x400,
             0xDC00 + (n - 0x10000) % 0x400]) ++ acc)
    []

/-- Lexicographic less-or-equal on code-unit lists. -/
def unitsLe : List Nat → List Nat → Bool
  | [], _ => true
  | _ :: _, [] => false
  | a :: as, b :: bs =>
    if a < b then true else if b < a then false else unitsLe as bs

/-- JavaScript's default (`Array.prototype.sort`) string order: by UTF-16
code units, hence case-sensitive — every uppercase ASCII letter sorts
before every lowercase one. -/
def jsLeP (a b : String) : Prop := unitsLe (utf16Units a) (utf16Units b) = true

instance : DecidableRel jsLeP := fun a b =>
  inferInstanceAs (Decidable (unitsLe (utf16Units a) (utf16Units b) = true))

/-- The `.sort()` the source applies to the configuration's group names
(the native array sort with the default comparator), modelled as a stable
sort by the JavaScript default string order. -/
def jsSort (l : List String) : List String := List.insertionSort jsLeP l

/-- The target expansion inside `generateLinkGroups` (the
`.map(resolveFullPath).map(glob.sync).flatten().uniq()` chain): each
pattern is resolved, expanded once through the glob, and the flattened
results are deduplicated preserving first-seen order.  `resolve` stands
for `resolveFullPath` (tilde expansion plus `path.resolve`, summarised as
an environment-supplied resolver) and `globFn` for `glob.sync` against the
filesystem. -/
def expandTargets (resolve : String → String) (globFn : String → List String)
    (patterns : List String) : List String :=
  jsUniq ((patterns.map (fun g => globFn (resolve g))).flatten)

/-- One named link group: sync directory plus the mapping from link file
name to target path. -/
structure LinkGroup where
  name : String
  syncDir : String
  links : List (String × String)
deriving DecidableEq

/-- The warning `logger.warn` emits for a dropped cyclic target. -/
def cyclicWarning (name targetPath : String) : String :=
  "Ignoring cyclic path caused by " ++ name ++ ": " ++ targetPath

/-- Lookup of `config[name]` in the configuration object (keys unique). -/
def configPatterns (config : List (String × List String)) (name : String) :
    List String :=
  match config.find? (fun kv => kv.1 = name) with
  | some kv => kv.2
  | none => []

/-- The `.reduce` at the end of the link pipeline: fold the kept target
paths into the link mapping keyed by
`filenamify(targetPath).toLowerCase()`, with JavaScript object update
semantics (last duplicate key wins). -/
def buildLinks (filenamifyFn : String → String) (kept : List String) :
    List (String × String) :=
  kept.foldl (fun acc t => jsObjInsert acc (toLowerStr (filenamifyFn t)) t) []

/-- The body of `generateLinkGroups`'s per-name `.map`: resolve the sync
directory `rootDir/name`, expand the group's target patterns, drop every
candidate `t` with `isSameOrSubpath(syncDir, t)`, and build the link
mapping from the kept candidates. -/
def buildGroup (resolve : String → String) (globFn : String → List String)
    (filenamifyFn : String → String) (rootDir : String)
    (config : List (String × List String)) (name : String) : LinkGroup :=
  let syncDir := resolve (joinPath rootDir name)
  let candidates := expandTargets resolve globFn (configPatterns config name)
  let kept := candidates.filter (fun t => !(isSameOrSubpath syncDir t))
  ⟨name, syncDir, buildLinks filenamifyFn kept⟩

/-- The warnings `generateLinkGroups` logs while filtering one group's
candidates: one per candidate dropped as cyclic. -/
def groupWarnings (resolve : String → String) (globFn : String → List String)
    (rootDir : String) (config : List (String × List String))
    (name : String) : List String :=
  let syncDir := resolve (joinPath rootDir name)
  let candidates := expandTargets resolve globFn (configPatterns config name)
  (candidates.filter (fun t => isSameOrSubpath syncDir t)).map
    (cyclicWarning name)

/-- `generateLinkGroups`, returning the groups in processing order together
with the cyclic-path warnings it logs.  The configuration is the parsed
YAML object as an ordered association list; `resolve`, `globFn` and
`filenamifyFn` stand for the external `resolveFullPath`, `glob.sync` and
`filenamify` collaborators.  The source sorts the configuration's keys and
maps each name to its group, warning as it drops cyclic candidates. -/
def generateLinkGroups (resolve : String → String)
    (globFn : String → List String) (filenamifyFn : String → String)
    (rootDir : String) (config : List (String × List String)) :
    List LinkGroup × List String :=
  let names := jsSort (config.map Prod.fst)
  (names.map (buildGroup resolve globFn filenamifyFn rootDir config),
   (names.map (groupWarnings resolve globFn rootDir config)).flatten)

/-- Sequential reconciliation of a list of (link path, target path) tasks,
as `main`'s loop over groups and `processLinks`'s loop over link names
perform, returning the final state and the per-task outcomes. -/
def runLinks (oracle : Nat → ChoiceOption) :
    List (String × String) → PState → Except PErr (PState × List Outcome)
  | [], s => Except.ok (s, [])
  | (lp, tp) :: rest, s =>
    match processLink oracle lp tp s with
    | Except.error e => Except.error e
    | Except.ok (s1, o) =>
      match runLinks oracle rest s1 with
      | Except.error e => Except.error e
      | Except.ok (s2, os) => Except.ok (s2, o :: os)

/-! ## Outcome bookkeeping and observation helpers -/

/-- The counter update a given outcome performs (each processed link
increments exactly one of the three counters). -/
def applyOutcome : Outcome → Stats → Stats
  | Outcome.created, st => { st with totalCreated := st.totalCreated + 1 }
  | Outcome.alreadyCorrect, st =>
    { st with totalSkippedExisting := st.totalSkippedExisting + 1 }
  | Outcome.skippedByChoice, st =>
    { st with totalSkippedByChoice := st.totalSkippedByChoice + 1 }

/-- Sum of the three run counters. -/
def sumStats (st : Stats) : Nat :=
  st.totalCreated + st.totalSkippedExisting + st.totalSkippedByChoice

/-- Final state of a successful `processLink`, if any. -/
def okState (r : Except PErr (PState × Outcome)) : Option PState :=
  match r with
  | Except.ok (s, _) => some s
  | Except.error _ => none

/-- Outcome of a successful `processLink`, if any. -/
def okOutcome (r : Except PErr (PState × Outcome)) : Option Outcome :=
  match r with
  | Except.ok (_, o) => some o
  | Except.error _ => none

/-- Final state of a successful `runLinks`, if any. -/
def okStateL (r : Except PErr (PState × List Outcome)) : Option PState :=
  match r with
  | Except.ok (s, _) => some s
  | Except.error _ => none

/-- Outcome list of a successful `runLinks`, if any. -/
def okOutcomes (r : Except PErr (PState × List Outcome)) : Option (List Outcome) :=
  match r with
  | Except.ok (_, os) => some os
  | Except.error _ => none

/-! ## Concrete scenarios used to settle individual claims -/

/-- The empty filesystem. -/
def emptyFS : FS := fun _ => none

/-- Initial engine state over a filesystem: zero counters, no sticky
decisions, no prompts issued. -/
def initState (f : FS) : PState := ⟨f, Stats.zero, Sticky.none0, 0⟩

/-- An actor that always answers Skip. -/
def skipOracle : Nat → ChoiceOption := fun _ => ChoiceOption.Skip

/-- An actor that always answers Replace. -/
def replaceOracle : Nat → ChoiceOption := fun _ => ChoiceOption.Replace

/-- An actor that always answers ReplaceAll. -/
def replaceAllOracle : Nat → ChoiceOption := fun _ => ChoiceOption.ReplaceAll

/-- An actor that answers Replace to the first prompt and Skip afterwards. -/
def replaceThenSkipOracle : Nat → ChoiceOption :=
  fun n => if n = 0 then ChoiceOption.Replace else ChoiceOption.Skip

/-- Two wrong symbolic links, with both the wrong current targets and the
desired targets physically present, for the sticky-propagation
scenario. -/
def twoWrongLinksFS : FS :=
  (((((emptyFS.update "/sync/l1" (Entity.symlink "/w1")).update
      "/sync/l2" (Entity.symlink "/w2")).update "/w1" Entity.file).update
    "/w2" Entity.file).update "/t1" Entity.file).update "/t2" Entity.file

/-- A filesystem holding just the desired target of the single-link
creation scenarios. -/
def c1TargetFS : FS := emptyFS.update "/data/target" Entity.file

/-- A physical file occupying a link path, target free. -/
def physFreeTargetFS : FS := emptyFS.update "/sync/l" Entity.file

/-- A physical file occupying a link path and a directory occupying the
target path. -/
def physOccupiedTargetFS : FS :=
  (emptyFS.update "/sync/l" Entity.file).update "/data/t" Entity.dir

/-- Base filesystem of the two-creation run used to witness the
statistics conservation law: both desired targets exist. -/
def c3BaseFS : FS :=
  (emptyFS.update "/t1" Entity.file).update "/t2" Entity.file

/-- Result state of that two-creation run. -/
def c3WitnessState : PState :=
  ⟨(c3BaseFS.update "/sync/a" (Entity.symlink "/t1")).update "/sync/b"
      (Entity.symlink "/t2"),
   ⟨2, 0, 0⟩, Sticky.none0, 0⟩

/-- A dangling symbolic link at the link path pointing at the (absent)
wrong target. -/
def danglingWrongLinkFS : FS := emptyFS.update "/sync/l" (Entity.symlink "/wrong")

/-- State over `danglingWrongLinkFS` in which a SkipAll decision is
already recorded for the link-points-elsewhere category. -/
def danglingWithStickyState : PState :=
  ⟨danglingWrongLinkFS, Stats.zero,
   ⟨some ChoiceOption.SkipAll, none, none⟩, 0⟩

/-! ## Skip-only runs (for the idempotence analysis) -/

/-- An optional recorded decision that is not a replacement. -/
def isSkipOnlyD : Option ChoiceOption → Prop
  | none => True
  | some a => a = ChoiceOption.Skip ∨ a = ChoiceOption.SkipAll

/-- No replacement decision recorded in any conflict category. -/
def skipOnlySticky (st : Sticky) : Prop :=
  isSkipOnlyD st.linkAction ∧ isSkipOnlyD st.syncEntityAction ∧
    isSkipOnlyD st.targetEntityAction

/-- An actor that never chooses a replacement. -/
def skipOnlyOracle (oracle : Nat → ChoiceOption) : Prop :=
  ∀ k, oracle k = ChoiceOption.Skip ∨ oracle k = ChoiceOption.SkipAll

/-- Base filesystem of the one-link idempotence witness scenario: the
desired target exists, the link path is absent. -/
def c9BaseFS : FS := emptyFS.update "/data/t" Entity.file

/-- State after the first run of the idempotence witness scenario: the
link was created, no prompt ever happened. -/
def c9Run1State : PState :=
  ⟨c9BaseFS.update "/sync/a" (Entity.symlink "/data/t"), ⟨1, 0, 0⟩,
   Sticky.none0, 0⟩

/-- State after the second run of the same scenario: the link classified
as already correct, nothing else changed. -/
def c9Run2State : PState :=
  ⟨c9BaseFS.update "/sync/a" (Entity.symlink "/data/t"), ⟨1, 0, 1⟩,
   Sticky.none0, 0⟩

/-! ## Definitions following the specification's words

These definitions are translated from the specification, not from the
source, solely so that the specified behaviour can be compared against the
source's behaviour where the two disagree. -/

/-- Modelled from the spec: the six categorical `ConflictDecision` outcomes
of §3 that §4.4 says are offered for a `PhysicalEntity` conflict
(`{skip, skip-all, replace, replace-all, move-and-relink,
move-and-relink-all}`); the source's `ChoiceOption` enum has no
move-and-relink values. -/
inductive SpecConflictDecision where
  | skip
  | skipAll
  | replace
  | replaceAll
  | moveAndRelink
  | moveAndRelinkAll
deriving DecidableEq

/-- Modelled from the spec: the option set §4.4 says is presented for a
fresh `PhysicalEntity` conflict. -/
def specPhysicalEntityChoices : List SpecConflictDecision :=
  [SpecConflictDecision.skip, SpecConflictDecision.skipAll,
   SpecConflictDecision.replace, SpecConflictDecision.replaceAll,
   SpecConflictDecision.moveAndRelink, SpecConflictDecision.moveAndRelinkAll]

/-- Modelled from the spec: the four `RunStatistics` counters of §3
(created, already correct, skipped by choice, skipped because the resolved
target does not exist); the source keeps only the first three. -/
structure SpecStats where
  created : Nat
  alreadyCorrect : Nat
  skippedByChoice : Nat
  skippedMissingTarget : Nat
deriving DecidableEq

/-- Modelled from the spec: §4.4's rule for an `Absent` link path —
proceed to creation unless the desired target itself does not exist on
disk, in which case record the "missing target" outcome and skip, never
creating a dangling link.  Returns the updated statistics and
filesystem. -/
def specAbsentStep (f : FS) (linkPath targetPath : String)
    (st : SpecStats) : SpecStats × FS :=
  if existsSyncB f targetPath then
    ({ st with created := st.created + 1 },
     f.update linkPath (Entity.symlink targetPath))
  else
    ({ st with skippedMissingTarget := st.skippedMissingTarget + 1 }, f)

/-- Modelled from the spec: §4.2's target expansion — each resolved
pattern is expanded both as a glob against the filesystem root and as a
glob relative to the group's sync directory, the two candidate lists are
concatenated, and the flattened whole is deduplicated preserving
first-seen order.  `globRoot` is the expansion against the root and
`globSync` the additional expansion relative to the sync directory. -/
def expandTargetsSpec (resolve : String → String)
    (globRoot globSync : String → List String) (patterns : List String) :
    List String :=
  jsUniq ((patterns.map (fun g => globRoot (resolve g) ++ globSync (resolve g))).flatten)

/-! ## Helper lemmas -/

theorem FS.update_self (f : FS) (p : String) (e : Entity) :
    (f.update p e) p = some e := by
  simp [FS.update]

theorem FS.update_other (f : FS) (p q : String) (e : Entity) (h : q ≠ p) :
    (f.update p e) q = f q := by
  simp [FS.update, h]

theorem FS.erase_self (f : FS) (p : String) : (f.erase p) p = none := by
  simp [FS.erase]

theorem FS.erase_other (f : FS) (p q : String) (h : q ≠ p) :
    (f.erase p) q = f q := by
  simp [FS.erase, h]

theorem FS.rename_apply (f : FS) (src dst : String) (e : Entity)
    (h : f src = some e) : f.rename src dst = (f.erase src).update dst e := by
  unfold FS.rename
  rw [h]

theorem ensureSymlinkM_ok (f : FS) (tp lp : String) (f2 : FS)
    (h : ensureSymlinkM f tp lp = Except.ok f2) :
    f2 = f.update lp (Entity.symlink tp) := by
  unfold ensureSymlinkM at h
  split at h
  · split at h
    · cases h
    · injection h with h'
      exact h'.symm
  · split at h
    · injection h with h'
      exact h'.symm
    · split at h
      · cases h
      · injection h with h'
        exact h'.symm

theorem ensureSymlinkM_of_entity (f : FS) (tp lp : String) (e : Entity)
    (h : f tp = some e) :
    ensureSymlinkM f tp lp = Except.ok (f.update lp (Entity.symlink tp)) := by
  unfold ensureSymlinkM
  rw [h]
  split
  · rfl
  · split
    · rfl
    · rfl

theorem ensureSymlinkM_missing_abs (f : FS) (tp lp : String)
    (habs : isAbsolutePath tp = true) (h : f tp = none) :
    ensureSymlinkM f tp lp = Except.error PErr.enoent := by
  unfold ensureSymlinkM
  rw [if_pos habs, h]

theorem statSyncKind_isSome_of_physical (f : FS) (p : String) (ent : Entity)
    (h : f p = some ent) (hphys : ∀ r, ent ≠ Entity.symlink r) :
    (statSyncKind f p).isSome = true := by
  cases ent with
  | symlink r => exact absurd rfl (hphys r)
  | file => simp [statSyncKind, statKind, h]
  | dir => simp [statSyncKind, statKind, h]

theorem existsSyncB_entity (f : FS) (p : String) (h : existsSyncB f p = true) :
    ∃ e, f p = some e := by
  unfold existsSyncB statSyncKind statKind at h
  rcases he : f p with _ | e
  · rw [he] at h; simp at h
  · exact ⟨e, rfl⟩

theorem inquireLink_cases (oracle : Nat → ChoiceOption) (s : PState)
    (ct : String) (a : ChoiceOption) (s1 : PState)
    (h : inquireExistingLinkToAnotherTargetAction oracle s ct = Except.ok (a, s1)) :
    (s.sticky.linkAction = some a ∧ s1 = s) ∨
    (s.sticky.linkAction = none ∧ (statSyncKind s.fsys ct).isSome = true ∧
      a = oracle s.prompt ∧
      s1 = { s with
          sticky :=
            if isForever a then { s.sticky with linkAction := some a }
            else s.sticky,
          prompt := s.prompt + 1 }) := by
  unfold inquireExistingLinkToAnotherTargetAction at h
  split at h
  · left
    injection h with h'
    injection h' with h1 h2
    subst h1; subst h2
    exact ⟨by assumption, rfl⟩
  · split at h
    · cases h
    · right
      injection h with h'
      injection h' with h1 h2
      subst h1; subst h2
      refine ⟨by assumption, ?_, rfl, rfl⟩
      rename_i hk
      rw [hk]; rfl

theorem inquireSync_cases (oracle : Nat → ChoiceOption) (s : PState)
    (lp : String) (a : ChoiceOption) (s1 : PState)
    (h : inquireExistingSyncEntityAction oracle s lp = Except.ok (a, s1)) :
    (s.sticky.syncEntityAction = some a ∧ s1 = s) ∨
    (s.sticky.syncEntityAction = none ∧ (statSyncKind s.fsys lp).isSome = true ∧
      a = oracle s.prompt ∧
      s1 = { s with
          sticky :=
            if isForever a then { s.sticky with syncEntityAction := some a }
            else s.sticky,
          prompt := s.prompt + 1 }) := by
  unfold inquireExistingSyncEntityAction at h
  split at h
  · left
    injection h with h'
    injection h' with h1 h2
    subst h1; subst h2
    exact ⟨by assumption, rfl⟩
  · split at h
    · cases h
    · right
      injection h with h'
      injection h' with h1 h2
      subst h1; subst h2
      refine ⟨by assumption, ?_, rfl, rfl⟩
      rename_i hk
      rw [hk]; rfl

theorem inquireTarget_cases (oracle : Nat → ChoiceOption) (s : PState)
    (tp : String) (a : ChoiceOption) (s1 : PState)
    (h : inquireExistingTargetEntityAction oracle s tp = Except.ok (a, s1)) :
    (s.sticky.targetEntityAction = some a ∧ s1 = s) ∨
    (s.sticky.targetEntityAction = none ∧ (statSyncKind s.fsys tp).isSome = true ∧
      a = oracle s.prompt ∧
      s1 = { s with
          sticky :=
            if isForever a then { s.sticky with targetEntityAction := some a }
            else s.sticky,
          prompt := s.prompt + 1 }) := by
  unfold inquireExistingTargetEntityAction at h
  split at h
  · left
    injection h with h'
    injection h' with h1 h2
    subst h1; subst h2
    exact ⟨by assumption, rfl⟩
  · split at h
    · cases h
    · right
      injection h with h'
      injection h' with h1 h2
      subst h1; subst h2
      refine ⟨by assumption, ?_, rfl, rfl⟩
      rename_i hk
      rw [hk]; rfl

theorem inquiry_preserves (oracle : Nat → ChoiceOption) (s s1 : PState)
    (a : ChoiceOption)
    (h : inquireExistingLinkToAnotherTargetAction oracle s ct = Except.ok (a, s1) ∨
      inquireExistingSyncEntityAction oracle s ct = Except.ok (a, s1) ∨
      inquireExistingTargetEntityAction oracle s ct = Except.ok (a, s1)) :
    s1.fsys = s.fsys ∧ s1.stats = s.stats := by
  rcases h with h | h | h
  · rcases inquireLink_cases oracle s ct a s1 h with ⟨_, rfl⟩ | ⟨_, _, _, rfl⟩ <;>
      exact ⟨rfl, rfl⟩
  · rcases inquireSync_cases oracle s ct a s1 h with ⟨_, rfl⟩ | ⟨_, _, _, rfl⟩ <;>
      exact ⟨rfl, rfl⟩
  · rcases inquireTarget_cases oracle s ct a s1 h with ⟨_, rfl⟩ | ⟨_, _, _, rfl⟩ <;>
      exact ⟨rfl, rfl⟩

/-! ## C1 — missing-target handling at an Absent link path -/

/-- C1 counterexample: with nothing at the link path and nothing at the
desired (absolute) target, `processLink` neither records a
"missing target" outcome nor skips: `fs.ensureSymlink` throws `ENOENT`
and the run aborts with no outcome at all — while the specified engine
records the missing-target skip.  (No dangling link is created, but only
because the run crashes, not because the engine checked.) -/
theorem c1_counterexample :
    processLink skipOracle "/sync/link" "/data/target" (initState emptyFS) =
      Except.error PErr.enoent ∧
    okOutcome (processLink skipOracle "/sync/link" "/data/target"
      (initState emptyFS)) = none ∧
    (specAbsentStep emptyFS "/sync/link" "/data/target"
      ⟨0, 0, 0, 0⟩).1.skippedMissingTarget = 1 ∧
    (specAbsentStep emptyFS "/sync/link" "/data/target"
      ⟨0, 0, 0, 0⟩).2 "/sync/link" = none := by
  refine ⟨rfl, rfl, rfl, rfl⟩

/-- C1 amended: for a link path classified `Absent` with an absolute
desired target, `processLink` performs no missing-target check of its
own: when the target exists it creates the link and increments the
created counter, and when the target does not exist `fs.ensureSymlink`
throws `ENOENT`, aborting the run — no "missing target" outcome is
recorded, no counter is incremented, and no link path is skipped. -/
theorem c1_absent_no_missing_target_outcome (oracle : Nat → ChoiceOption)
    (linkPath targetPath : String) (s : PState)
    (habs : isAbsolutePath targetPath = true)
    (h : s.fsys linkPath = none) :
    (s.fsys targetPath = none →
      processLink oracle linkPath targetPath s = Except.error PErr.enoent) ∧
    (∀ e, s.fsys targetPath = some e →
      processLink oracle linkPath targetPath s =
        Except.ok
          ({ s with
              fsys := s.fsys.update linkPath (Entity.symlink targetPath),
              stats := { s.stats with
                totalCreated := s.stats.totalCreated + 1 } },
           Outcome.created)) := by
  constructor
  · intro hmiss
    unfold processLink
    rw [h, ensureSymlinkM_missing_abs s.fsys targetPath linkPath habs hmiss]
  · intro e he
    unfold processLink
    rw [h, ensureSymlinkM_of_entity s.fsys targetPath linkPath e he]

/-- C1 witness: the abort on a missing target and the creation on an
existing one. -/
theorem c1_absent_no_missing_target_outcome_witness :
    processLink skipOracle "/sync/link" "/data/target" (initState emptyFS) =
      Except.error PErr.enoent ∧
    processLink skipOracle "/sync/link" "/data/target" (initState c1TargetFS) =
      Except.ok
        ({ initState c1TargetFS with
            fsys := (initState c1TargetFS).fsys.update "/sync/link"
              (Entity.symlink "/data/target"),
            stats := { (initState c1TargetFS).stats with
              totalCreated := (initState c1TargetFS).stats.totalCreated + 1 } },
         Outcome.created) :=
  ⟨(c1_absent_no_missing_target_outcome skipOracle "/sync/link" "/data/target"
      (initState emptyFS) rfl rfl).1 rfl,
   (c1_absent_no_missing_target_outcome skipOracle "/sync/link" "/data/target"
      (initState c1TargetFS) rfl rfl).2 Entity.file rfl⟩

/-! ## C2 — the cycle filter -/

theorem mem_jsObjInsert (obj : List (String × String)) (k v : String)
    (kv : String × String) (h : kv ∈ jsObjInsert obj k v) :
    kv ∈ obj ∨ kv.2 = v := by
  unfold jsObjInsert at h
  split at h
  · rcases List.mem_map.mp h with ⟨kv0, hkv0, heq⟩
    by_cases hc : kv0.1 = k
    · right
      rw [if_pos hc] at heq
      rw [← heq]
    · left
      rw [if_neg hc] at heq
      rw [← heq]; exact hkv0
  · rcases List.mem_append.mp h with h1 | h1
    · exact Or.inl h1
    · right
      rcases List.mem_singleton.mp h1 with rfl
      rfl

theorem buildLinks_snd_mem (filenamifyFn : String → String)
    (kept : List String) (kv : String × String)
    (h : kv ∈ buildLinks filenamifyFn kept) : kv.2 ∈ kept := by
  unfold buildLinks at h
  suffices H : ∀ (l : List String) (acc : List (String × String)),
      kv ∈ l.foldl (fun acc2 t => jsObjInsert acc2 (toLowerStr (filenamifyFn t)) t) acc →
      kv ∈ acc ∨ kv.2 ∈ l by
    rcases H kept [] h with h1 | h1
    · cases h1
    · exact h1
  intro l
  induction l with
  | nil => intro acc h0; exact Or.inl h0
  | cons t ts ih =>
    intro acc h0
    rcases ih _ h0 with h1 | h1
    · rcases mem_jsObjInsert _ _ _ _ h1 with h2 | h2
      · exact Or.inl h2
      · exact Or.inr (by rw [h2]; exact List.mem_cons_self t ts)
    · exact Or.inr (List.mem_cons_of_mem t h1)

/-- C2 counterexample: for the sync directory `/root/groupA` and a target
pattern resolving to `/root/groupA/sub`, the expanded target set DOES
contain `/root/groupA/sub` (nested candidates are not dropped) and no
warning is emitted — the source's `isSameOrSubpath(syncDir, targetPath)`
test drops ancestors of the sync directory, not its descendants. -/
theorem c2_counterexample :
    ((generateLinkGroups id (fun p => [p]) id "/root"
        [("groupA", ["/root/groupA/sub"])]).1.map (fun g => g.links)) =
      [[("/root/groupa/sub", "/root/groupA/sub")]] ∧
    (generateLinkGroups id (fun p => [p]) id "/root"
        [("groupA", ["/root/groupA/sub"])]).2 = [] := by
  refine ⟨rfl, rfl⟩

/-- C2 amended: for every group, every expanded target candidate of which
the sync directory is the candidate itself or a descendant (i.e.
`isSameOrSubpath(syncDir, candidate)` holds — the candidate is the sync
directory or one of its ancestors) is dropped from the group's link
mapping, with a warning naming the group and the offending path; the
retained link targets all fail that test.  Candidates nested under the
sync directory are retained. -/
theorem c2_cycle_filter (resolve : String → String)
    (globFn : String → List String) (filenamifyFn : String → String)
    (rootDir : String) (config : List (String × List String))
    (g : LinkGroup)
    (hg : g ∈ (generateLinkGroups resolve globFn filenamifyFn rootDir config).1) :
    (∀ kv, kv ∈ g.links → isSameOrSubpath g.syncDir kv.2 = false) ∧
    (∀ t, t ∈ expandTargets resolve globFn (configPatterns config g.name) →
      isSameOrSubpath g.syncDir t = true →
      cyclicWarning g.name t ∈
        (generateLinkGroups resolve globFn filenamifyFn rootDir config).2) := by
  rcases List.mem_map.mp hg with ⟨name, hname, rfl⟩
  constructor
  · intro kv hkv
    have h2 := buildLinks_snd_mem filenamifyFn _ kv hkv
    have h3 := (List.mem_filter.mp h2).2
    rw [Bool.not_eq_true'] at h3
    exact h3
  · intro t ht hcyc
    apply List.mem_flatten.mpr
    refine ⟨groupWarnings resolve globFn rootDir config name, List.mem_map_of_mem _ hname, ?_⟩
    unfold groupWarnings
    exact List.mem_map_of_mem _ (List.mem_filter.mpr ⟨ht, hcyc⟩)

/-- C2 witness: in a group whose sync directory is `/root/groupA`, the
candidate `/root` (an ancestor of the sync directory) is dropped with a
warning naming the group and the path. -/
theorem c2_cycle_filter_witness :
    cyclicWarning "groupA" "/root" ∈
      (generateLinkGroups id (fun p => [p]) id "/root"
        [("groupA", ["/root"])]).2 :=
  (c2_cycle_filter id (fun p => [p]) id "/root" [("groupA", ["/root"])]
      ⟨"groupA", "/root/groupA", []⟩ (by decide)).2
    "/root" (by decide) (by decide)

/-! ## C3 — statistics conservation -/

theorem processLink_stats (oracle : Nat → ChoiceOption) (lp tp : String)
    (s s' : PState) (o : Outcome)
    (h : processLink oracle lp tp s = Except.ok (s', o)) :
    s'.stats = applyOutcome o s.stats := by
  unfold processLink at h
  split at h
  · split at h
    · cases h
    · injection h with h'
      injection h' with h1 h2
      subst h1; subst h2
      rfl
  · split at h
    · injection h with h'
      injection h' with h1 h2
      subst h1; subst h2
      rfl
    · split at h
      · cases h
      · rename_i action s1 heq
        have hpres := (inquiry_preserves oracle s s1 action (Or.inl heq)).2
        split at h
        · split at h
          · cases h
          · injection h with h'
            injection h' with h1 h2
            subst h1; subst h2
            simp [applyOutcome, hpres]
        · injection h with h'
          injection h' with h1 h2
          subst h1; subst h2
          simp [applyOutcome, hpres]
  · split at h
    · cases h
    · rename_i action s1 heq
      have hpres := (inquiry_preserves oracle s s1 action (Or.inr (Or.inl heq))).2
      split at h
      · split at h
        · split at h
          · cases h
          · rename_i ta s2 heq2
            have hpres2 :=
              (inquiry_preserves oracle s1 s2 ta (Or.inr (Or.inr heq2))).2
            split at h
            · split at h
              · cases h
              · split at h
                · cases h
                · injection h with h'
                  injection h' with h1 h2
                  subst h1; subst h2
                  simp [applyOutcome, hpres, hpres2]
            · injection h with h'
              injection h' with h1 h2
              subst h1; subst h2
              simp [applyOutcome, hpres, hpres2]
        · split at h
          · cases h
          · injection h with h'
            injection h' with h1 h2
            subst h1; subst h2
            simp [applyOutcome, hpres]
      · injection h with h'
        injection h' with h1 h2
        subst h1; subst h2
        simp [applyOutcome, hpres]

theorem sumStats_applyOutcome (o : Outcome) (st : Stats) :
    sumStats (applyOutcome o st) = sumStats st + 1 := by
  cases o <;> simp [applyOutcome, sumStats] <;> omega

theorem runLinks_sum (oracle : Nat → ChoiceOption)
    (tasks : List (String × String)) (s s' : PState) (outs : List Outcome)
    (h : runLinks oracle tasks s = Except.ok (s', outs)) :
    sumStats s'.stats = sumStats s.stats + tasks.length := by
  induction tasks generalizing s outs with
  | nil =>
    unfold runLinks at h
    injection h with h'
    injection h' with h1 h2
    subst h1
    simp
  | cons t ts ih =>
    obtain ⟨lp, tp⟩ := t
    unfold runLinks at h
    split at h
    · cases h
    · rename_i s1 o heq
      split at h
      · cases h
      · rename_i s2 os heq2
        injection h with h'
        injection h' with h1 h2
        subst h1
        have e1 := processLink_stats oracle lp tp s s1 o heq
        have e2 := ih s1 os heq2
        rw [e2, e1, sumStats_applyOutcome]
        simp [List.length_cons]
        omega

/-- C3 counterexample: the claim's conservation law is over four counters
including `skippedMissingTarget`, but the code has only three counters and
no missing-target outcome — on an `Absent` link path whose target does
not exist, the specified four-counter statistics record a missing-target
skip (a counted link path), while the code increments nothing at all:
`fs.ensureSymlink` throws and the run aborts, so the link path is
processed without any of the claim's four counters accounting for it. -/
theorem c3_counterexample :
    processLink skipOracle "/sync/b" "/data/missing" (initState emptyFS) =
      Except.error PErr.enoent ∧
    (okState (processLink skipOracle "/sync/b" "/data/missing"
      (initState emptyFS))).map (fun st => sumStats st.stats) = none ∧
    (specAbsentStep emptyFS "/sync/b" "/data/missing" ⟨0, 0, 0, 0⟩).1.created
      = 0 ∧
    (specAbsentStep emptyFS "/sync/b" "/data/missing"
      ⟨0, 0, 0, 0⟩).1.skippedMissingTarget = 1 := by
  refine ⟨rfl, rfl, rfl, rfl⟩

/-- C3 amended: the code maintains three counters; each processed link
path increments exactly one of them (`applyOutcome`), and for every run
over N link paths in which no filesystem-level failure occurs,
`totalCreated + totalSkippedExisting + totalSkippedByChoice` grows by
exactly N.  There is no `skippedMissingTarget` counter. -/
theorem c3_stats_conservation :
    (∀ (oracle : Nat → ChoiceOption) (lp tp : String) (s s' : PState)
        (o : Outcome),
      processLink oracle lp tp s = Except.ok (s', o) →
      s'.stats = applyOutcome o s.stats) ∧
    (∀ (oracle : Nat → ChoiceOption) (tasks : List (String × String))
        (s s' : PState) (outs : List Outcome),
      runLinks oracle tasks s = Except.ok (s', outs) →
      sumStats s'.stats = sumStats s.stats + tasks.length) :=
  ⟨processLink_stats, runLinks_sum⟩

/-- C3 witness: the conservation law evaluated on a concrete two-link run
from zeroed counters (both targets exist, so both links are created). -/
theorem c3_stats_conservation_witness :
    sumStats c3WitnessState.stats = sumStats (initState c3BaseFS).stats + 2 :=
  c3_stats_conservation.2 skipOracle [("/sync/a", "/t1"), ("/sync/b", "/t2")]
    (initState c3BaseFS) c3WitnessState [Outcome.created, Outcome.created] rfl

/-! ## C4 — sticky propagation -/

/-- C4 confirmed: once an "apply to all" decision is recorded for a
conflict category, the inquiry for that category returns it with the state
untouched (no prompt is issued); a fresh answer to the link-category
inquiry never disturbs the other categories' sticky memory and is recorded
exactly when it is SkipAll or ReplaceAll; and in the concrete two-link
scenario — both paths classified as symlinks pointing elsewhere —
answering ReplaceAll at the first prompt replaces both links while issuing
exactly one prompt. -/
theorem c4_sticky_propagation :
    (∀ (oracle : Nat → ChoiceOption) (s : PState) (ct : String)
        (a : ChoiceOption), s.sticky.linkAction = some a →
      inquireExistingLinkToAnotherTargetAction oracle s ct = Except.ok (a, s)) ∧
    (∀ (oracle : Nat → ChoiceOption) (s : PState) (lp : String)
        (a : ChoiceOption), s.sticky.syncEntityAction = some a →
      inquireExistingSyncEntityAction oracle s lp = Except.ok (a, s)) ∧
    (∀ (oracle : Nat → ChoiceOption) (s : PState) (ct : String)
        (a : ChoiceOption) (s1 : PState),
      inquireExistingLinkToAnotherTargetAction oracle s ct = Except.ok (a, s1) →
      s1.sticky.syncEntityAction = s.sticky.syncEntityAction ∧
      s1.sticky.targetEntityAction = s.sticky.targetEntityAction ∧
      ((a = ChoiceOption.SkipAll ∨ a = ChoiceOption.ReplaceAll) →
        s1.sticky.linkAction = some a)) ∧
    ((okStateL (runLinks replaceAllOracle
        [("/sync/l1", "/t1"), ("/sync/l2", "/t2")]
        (initState twoWrongLinksFS))).map
        (fun st => (st.prompt, st.stats.totalCreated)) = some (1, 2) ∧
      (okStateL (runLinks replaceAllOracle
        [("/sync/l1", "/t1"), ("/sync/l2", "/t2")]
        (initState twoWrongLinksFS))).map (fun st => st.fsys "/sync/l2") =
        some (some (Entity.symlink "/t2")) ∧
      (okStateL (runLinks replaceAllOracle
        [("/sync/l1", "/t1"), ("/sync/l2", "/t2")]
        (initState twoWrongLinksFS))).map (fun st => st.sticky.linkAction) =
        some (some ChoiceOption.ReplaceAll)) := by
  refine ⟨?_, ?_, ?_, rfl, rfl, rfl⟩
  · intro oracle s ct a h
    unfold inquireExistingLinkToAnotherTargetAction
    rw [h]
  · intro oracle s lp a h
    unfold inquireExistingSyncEntityAction
    rw [h]
  · intro oracle s ct a s1 h
    rcases inquireLink_cases oracle s ct a s1 h with ⟨hst, rfl⟩ | ⟨hst, _, _, rfl⟩
    · exact ⟨rfl, rfl, fun _ => hst⟩
    · refine ⟨?_, ?_, ?_⟩
      · by_cases hf : isForever a = true
        · simp [hf]
        · simp [hf]
      · by_cases hf : isForever a = true
        · simp [hf]
        · simp [hf]
      · intro hforever
        have hf : isForever a = true := by
          rcases hforever with rfl | rfl <;> rfl
        simp [hf]

/-- C4 witness: the sticky reuse applied to a state in which SkipAll is
already recorded for the link-points-elsewhere category. -/
theorem c4_sticky_propagation_witness :
    inquireExistingLinkToAnotherTargetAction skipOracle danglingWithStickyState
      "/wrong" = Except.ok (ChoiceOption.SkipAll, danglingWithStickyState) :=
  c4_sticky_propagation.1 skipOracle danglingWithStickyState "/wrong"
    ChoiceOption.SkipAll rfl

/-! ## C7 and C8 — the PhysicalEntity conflict -/

theorem processLink_physicalReplace_freeTarget (oracle : Nat → ChoiceOption)
    (s : PState) (lp tp : String) (ent : Entity)
    (hent : s.fsys lp = some ent) (hphys : ∀ r, ent ≠ Entity.symlink r)
    (hsticky : s.sticky.syncEntityAction = none)
    (ho : oracle s.prompt = ChoiceOption.Replace)
    (hfree : existsSyncB s.fsys tp = false) :
    processLink oracle lp tp s =
      Except.ok
        ({ s with
            fsys := (s.fsys.rename lp tp).update lp (Entity.symlink tp),
            stats := { s.stats with
              totalCreated := s.stats.totalCreated + 1 },
            prompt := s.prompt + 1 },
         Outcome.created) := by
  have hstat : (statSyncKind s.fsys lp).isSome = true :=
    statSyncKind_isSome_of_physical s.fsys lp ent hent hphys
  obtain ⟨k, hk⟩ := Option.isSome_iff_exists.mp hstat
  have hmv : (s.fsys.rename lp tp) tp = some ent := by
    rw [FS.rename_apply _ _ _ _ hent]
    exact FS.update_self _ _ _
  have hens := ensureSymlinkM_of_entity (s.fsys.rename lp tp) tp lp ent hmv
  unfold processLink inquireExistingSyncEntityAction
  rw [hent, hsticky, hk, ho]
  cases ent with
  | symlink r => exact absurd rfl (hphys r)
  | file => simp [isForever, hfree, hens]
  | dir => simp [isForever, hfree, hens]

theorem processLink_physicalReplace_occupiedReplace_enoent
    (oracle : Nat → ChoiceOption) (s : PState) (lp tp : String) (ent : Entity)
    (hent : s.fsys lp = some ent) (hphys : ∀ r, ent ≠ Entity.symlink r)
    (hsticky : s.sticky.syncEntityAction = none)
    (hsticky2 : s.sticky.targetEntityAction = none)
    (ho : oracle s.prompt = ChoiceOption.Replace)
    (ho2 : oracle (s.prompt + 1) = ChoiceOption.Replace)
    (hocc : existsSyncB s.fsys tp = true)
    (hpar : ¬ statSyncKind s.fsys (dirname (markedOriginal tp)) =
      some EntityKind.dir) :
    processLink oracle lp tp s = Except.error PErr.enoent := by
  have hstat : (statSyncKind s.fsys lp).isSome = true :=
    statSyncKind_isSome_of_physical s.fsys lp ent hent hphys
  obtain ⟨k, hk⟩ := Option.isSome_iff_exists.mp hstat
  obtain ⟨k2, hk2⟩ := Option.isSome_iff_exists.mp
    (hocc : (statSyncKind s.fsys tp).isSome = true)
  obtain ⟨e2, he2⟩ := existsSyncB_entity s.fsys tp hocc
  have hrn : renameSyncM s.fsys tp (markedOriginal tp) =
      Except.error PErr.enoent := by
    unfold renameSyncM
    simp [he2, hpar]
  unfold processLink inquireExistingSyncEntityAction
    inquireExistingTargetEntityAction
  rw [hent, hsticky, hk, ho]
  cases ent with
  | symlink r => exact absurd rfl (hphys r)
  | file => simp [isForever, hocc, hsticky2, hk2, ho2, hrn]
  | dir => simp [isForever, hocc, hsticky2, hk2, ho2, hrn]

theorem processLink_physicalReplace_occupiedSkip (oracle : Nat → ChoiceOption)
    (s : PState) (lp tp : String) (ent : Entity)
    (hent : s.fsys lp = some ent) (hphys : ∀ r, ent ≠ Entity.symlink r)
    (hsticky : s.sticky.syncEntityAction = none)
    (hsticky2 : s.sticky.targetEntityAction = none)
    (ho : oracle s.prompt = ChoiceOption.Replace)
    (ho2 : oracle (s.prompt + 1) = ChoiceOption.Skip)
    (hocc : existsSyncB s.fsys tp = true) :
    processLink oracle lp tp s =
      Except.ok
        ({ s with
            stats := { s.stats with
              totalSkippedByChoice := s.stats.totalSkippedByChoice + 1 },
            prompt := s.prompt + 2 },
         Outcome.skippedByChoice) := by
  have hstat : (statSyncKind s.fsys lp).isSome = true :=
    statSyncKind_isSome_of_physical s.fsys lp ent hent hphys
  obtain ⟨k, hk⟩ := Option.isSome_iff_exists.mp hstat
  obtain ⟨k2, hk2⟩ := Option.isSome_iff_exists.mp
    (hocc : (statSyncKind s.fsys tp).isSome = true)
  unfold processLink inquireExistingSyncEntityAction
    inquireExistingTargetEntityAction
  rw [hent, hsticky, hk, ho]
  cases ent with
  | symlink r => exact absurd rfl (hphys r)
  | file => simp [isForever, hocc, hsticky2, hk2, ho2]
  | dir => simp [isForever, hocc, hsticky2, hk2, ho2]

/-- C7 counterexample: the option set offered for a fresh PhysicalEntity
conflict has four members, not the six the claim lists; and choosing
replace does not remove the occupying entity — it survives at the target
path (replace is the preserving, move-and-relink path). -/
theorem c7_counterexample :
    existingSyncEntityChoices.length = 4 ∧
    specPhysicalEntityChoices.length = 6 ∧
    existingSyncEntityChoices.length ≠ specPhysicalEntityChoices.length ∧
    (okState (processLink replaceOracle "/sync/l" "/data/t"
      (initState physFreeTargetFS))).map (fun st => st.fsys "/data/t") =
      some (some Entity.file) ∧
    okOutcome (processLink replaceOracle "/sync/l" "/data/t"
      (initState physFreeTargetFS)) = some Outcome.created := by
  refine ⟨rfl, rfl, by decide, rfl, rfl⟩

/-- C7 amended: for a fresh PhysicalEntity conflict the option set offered
is exactly the four decisions Skip, SkipAll, Replace, ReplaceAll; Replace
is the preserving path — the occupying entity is moved to the target path
(not removed) and a symbolic link to the target is created in its place. -/
theorem c7_physical_conflict_options :
    existingSyncEntityChoices =
      [ChoiceOption.Skip, ChoiceOption.SkipAll, ChoiceOption.Replace,
       ChoiceOption.ReplaceAll] ∧
    (∀ (oracle : Nat → ChoiceOption) (s : PState) (lp tp : String)
        (ent : Entity),
      s.fsys lp = some ent → (∀ r, ent ≠ Entity.symlink r) →
      s.sticky.syncEntityAction = none →
      oracle s.prompt = ChoiceOption.Replace →
      existsSyncB s.fsys tp = false → lp ≠ tp →
      processLink oracle lp tp s =
        Except.ok
          ({ s with
              fsys := (s.fsys.rename lp tp).update lp (Entity.symlink tp),
              stats := { s.stats with
                totalCreated := s.stats.totalCreated + 1 },
              prompt := s.prompt + 1 },
           Outcome.created) ∧
      ((s.fsys.rename lp tp).update lp (Entity.symlink tp)) tp = some ent ∧
      ((s.fsys.rename lp tp).update lp (Entity.symlink tp)) lp =
        some (Entity.symlink tp)) := by
  refine ⟨rfl, ?_⟩
  intro oracle s lp tp ent hent hphys hsticky ho hfree hne
  refine ⟨processLink_physicalReplace_freeTarget oracle s lp tp ent hent hphys
    hsticky ho hfree, ?_, FS.update_self _ _ _⟩
  rw [FS.update_other _ _ _ _ (Ne.symm hne)]
  unfold FS.rename
  rw [hent]
  exact FS.update_self _ _ _

/-- C7 witness: the amended behaviour on a concrete file occupying a link
path with a free target. -/
theorem c7_physical_conflict_options_witness :
    (initState physFreeTargetFS).fsys "/sync/l" = some Entity.file ∧
    (((initState physFreeTargetFS).fsys.rename "/sync/l" "/data/t").update
        "/sync/l" (Entity.symlink "/data/t")) "/data/t" = some Entity.file :=
  ⟨rfl,
   ((c7_physical_conflict_options.2 replaceOracle (initState physFreeTargetFS)
      "/sync/l" "/data/t" Entity.file rfl (fun r h => Entity.noConfusion h)
      rfl rfl rfl (by decide)).2).1⟩

/-- C8 code_bug: the claim (and the spec) describe the intended
behaviour — rename the pre-existing target entity aside under a marking
name, preserved, before the move — and the skip half of it does hold
(choosing Skip aborts with the filesystem untouched).  But the code
computes the rename destination as `'.livelink-' + targetPath +
'-original'`: for an absolute target path that is a cwd-relative path
whose parent directory does not exist, so `fs.renameSync` throws `ENOENT`
and the run aborts — nothing is preserved, moved, or linked.  This
theorem evaluates the code at the failing input (a file at the link path,
a directory at the target path, Replace answered to both conflicts) and
also proves the divergence in general whenever the marked destination's
parent directory is missing, together with the intact skip half. -/
theorem c8_move_relink_rename_enoent :
    (markedOriginal "/data/t" = ".livelink-/data/t-original" ∧
      dirname (markedOriginal "/data/t") = ".livelink-/data" ∧
      statSyncKind physOccupiedTargetFS (dirname (markedOriginal "/data/t")) =
        none ∧
      processLink replaceOracle "/sync/l" "/data/t"
        (initState physOccupiedTargetFS) = Except.error PErr.enoent ∧
      processLink replaceThenSkipOracle "/sync/l" "/data/t"
          (initState physOccupiedTargetFS) =
        Except.ok
          ({ initState physOccupiedTargetFS with
              stats := { (initState physOccupiedTargetFS).stats with
                totalSkippedByChoice :=
                  (initState physOccupiedTargetFS).stats.totalSkippedByChoice
                    + 1 },
              prompt := (initState physOccupiedTargetFS).prompt + 2 },
           Outcome.skippedByChoice)) ∧
    (∀ (oracle : Nat → ChoiceOption) (s : PState) (lp tp : String)
        (ent : Entity),
      s.fsys lp = some ent → (∀ r, ent ≠ Entity.symlink r) →
      s.sticky.syncEntityAction = none →
      s.sticky.targetEntityAction = none →
      oracle s.prompt = ChoiceOption.Replace →
      oracle (s.prompt + 1) = ChoiceOption.Replace →
      existsSyncB s.fsys tp = true →
      ¬ statSyncKind s.fsys (dirname (markedOriginal tp)) =
        some EntityKind.dir →
      processLink oracle lp tp s = Except.error PErr.enoent) := by
  refine ⟨⟨rfl, rfl, rfl, rfl, ?_⟩, ?_⟩
  · exact processLink_physicalReplace_occupiedSkip replaceThenSkipOracle
      (initState physOccupiedTargetFS) "/sync/l" "/data/t" Entity.file rfl
      (fun r h => Entity.noConfusion h) rfl rfl rfl rfl (by decide)
  · intro oracle s lp tp ent hent hphys hsticky hsticky2 ho ho2 hocc hpar
    exact processLink_physicalReplace_occupiedReplace_enoent oracle s lp tp
      ent hent hphys hsticky hsticky2 ho ho2 hocc hpar

/-- C8 witness: the general ENOENT divergence applied at the failing
input. -/
theorem c8_move_relink_rename_enoent_witness :
    processLink replaceOracle "/sync/l" "/data/t"
      (initState physOccupiedTargetFS) = Except.error PErr.enoent :=
  c8_move_relink_rename_enoent.2 replaceOracle
    (initState physOccupiedTargetFS) "/sync/l" "/data/t" Entity.file rfl
    (fun r h => Entity.noConfusion h) rfl rfl rfl rfl (by decide) (by decide)

/-! ## C10 — the unconditional stat of a wrong link's current target -/

/-- C10 counterexample: with a SkipAll decision already recorded for the
link-points-elsewhere category, `processLink` completes with a by-choice
skip on a symlink whose current target does not exist on disk — the
rebound closure returns the sticky decision without statting, so a
dangling wrong symlink does not make `processLink` throw. -/
theorem c10_counterexample :
    okOutcome (processLink skipOracle "/sync/l" "/t" danglingWithStickyState) =
      some Outcome.skippedByChoice ∧
    statSyncKind danglingWithStickyState.fsys "/wrong" = none ∧
    danglingWithStickyState.fsys "/sync/l" = some (Entity.symlink "/wrong") ∧
    resolveLinkTarget "/sync/l" "/wrong" ≠ "/t" := by
  refine ⟨rfl, rfl, rfl, by decide⟩

/-- C10 amended: presenting the link-points-elsewhere conflict — which
happens exactly when no sticky decision is recorded for that category —
unconditionally stats the current target, so `processLink` on a wrong
symlink whose current target cannot be statted throws; once a sticky
skip decision is recorded, the inquiry no longer stats anything and
`processLink` completes with a by-choice skip for such a link path.
(A sticky replace decision also skips the stat of the current target,
but can still abort later inside `fs.ensureSymlink` when the desired
target is itself missing.) -/
theorem c10_wrong_symlink_stat (oracle : Nat → ChoiceOption) (s : PState)
    (lp tp raw : String)
    (hlink : s.fsys lp = some (Entity.symlink raw))
    (hwrong : resolveLinkTarget lp raw ≠ tp) :
    (s.sticky.linkAction = none →
      statSyncKind s.fsys (resolveLinkTarget lp raw) = none →
      processLink oracle lp tp s = Except.error PErr.statFailed) ∧
    (∀ a, s.sticky.linkAction = some a →
      (a = ChoiceOption.Skip ∨ a = ChoiceOption.SkipAll) →
      processLink oracle lp tp s =
        Except.ok
          ({ s with stats := { s.stats with
              totalSkippedByChoice := s.stats.totalSkippedByChoice + 1 } },
           Outcome.skippedByChoice)) := by
  constructor
  · intro hsticky hdangling
    simp [processLink, inquireExistingLinkToAnotherTargetAction, hlink,
      hsticky, hdangling, hwrong]
  · intro a hsticky hskip
    have ha : ¬ (a = ChoiceOption.Replace ∨ a = ChoiceOption.ReplaceAll) := by
      rcases hskip with rfl | rfl <;> simp
    simp [processLink, inquireExistingLinkToAnotherTargetAction, hlink,
      hsticky, hwrong, ha]

/-- C10 witness: the throw on a fresh dangling wrong symlink, and the
completion once SkipAll is sticky. -/
theorem c10_wrong_symlink_stat_witness :
    processLink skipOracle "/sync/l" "/t" (initState danglingWrongLinkFS) =
      Except.error PErr.statFailed ∧
    processLink skipOracle "/sync/l" "/t" danglingWithStickyState =
      Except.ok
        ({ danglingWithStickyState with
            stats := { danglingWithStickyState.stats with
              totalSkippedByChoice :=
                danglingWithStickyState.stats.totalSkippedByChoice + 1 } },
         Outcome.skippedByChoice) :=
  ⟨(c10_wrong_symlink_stat skipOracle (initState danglingWrongLinkFS)
      "/sync/l" "/t" "/wrong" rfl (by decide)).1 rfl rfl,
   (c10_wrong_symlink_stat skipOracle danglingWithStickyState "/sync/l" "/t"
      "/wrong" rfl (by decide)).2 ChoiceOption.SkipAll rfl (Or.inr rfl)⟩

/-! ## C5 — target expansion and deduplication -/

theorem jsUniqAux_sublist (l : List String) :
    ∀ seen, (jsUniqAux seen l).Sublist l := by
  induction l with
  | nil => intro seen; exact List.Sublist.refl []
  | cons x xs ih =>
    intro seen
    unfold jsUniqAux
    by_cases hx : x ∈ seen
    · rw [if_pos hx]; exact (ih seen).cons x
    · rw [if_neg hx]; exact (ih (x :: seen)).cons₂ x

theorem jsUniqAux_mem (l : List String) :
    ∀ seen a, a ∈ jsUniqAux seen l ↔ (a ∈ l ∧ a ∉ seen) := by
  induction l with
  | nil => intro seen a; simp [jsUniqAux]
  | cons x xs ih =>
    intro seen a
    unfold jsUniqAux
    by_cases hx : x ∈ seen
    · rw [if_pos hx, ih]
      constructor
      · rintro ⟨h1, h2⟩
        exact ⟨List.mem_cons_of_mem _ h1, h2⟩
      · rintro ⟨h1, h2⟩
        rcases List.mem_cons.mp h1 with rfl | h1
        · exact absurd hx h2
        · exact ⟨h1, h2⟩
    · rw [if_neg hx]
      constructor
      · intro h
        rcases List.mem_cons.mp h with rfl | h
        · exact ⟨List.mem_cons_self _ _, hx⟩
        · rcases (ih (x :: seen) a).mp h with ⟨h1, h2⟩
          exact ⟨List.mem_cons_of_mem _ h1,
            fun hs => h2 (List.mem_cons_of_mem _ hs)⟩
      · rintro ⟨h1, h2⟩
        rcases List.mem_cons.mp h1 with rfl | h1
        · exact List.mem_cons_self _ _
        · by_cases hax : a = x
          · subst hax; exact List.mem_cons_self _ _
          · exact List.mem_cons_of_mem _ ((ih (x :: seen) a).mpr
              ⟨h1, fun hs => (List.mem_cons.mp hs).elim hax h2⟩)

theorem jsUniqAux_nodup (l : List String) :
    ∀ seen, (jsUniqAux seen l).Nodup := by
  induction l with
  | nil => intro seen; exact List.nodup_nil
  | cons x xs ih =>
    intro seen
    unfold jsUniqAux
    by_cases hx : x ∈ seen
    · rw [if_pos hx]; exact ih seen
    · rw [if_neg hx]
      refine List.nodup_cons.mpr ⟨?_, ih (x :: seen)⟩
      intro hmem
      exact ((jsUniqAux_mem xs (x :: seen) x).mp hmem).2
        (List.mem_cons_self x seen)

theorem jsUniqAux_congr (l : List String) :
    ∀ s1 s2, (∀ a, a ∈ s1 ↔ a ∈ s2) → jsUniqAux s1 l = jsUniqAux s2 l := by
  induction l with
  | nil => intro s1 s2 _; rfl
  | cons x xs ih =>
    intro s1 s2 hiff
    unfold jsUniqAux
    by_cases hx : x ∈ s1
    · rw [if_pos hx, if_pos ((hiff x).mp hx)]
      exact ih s1 s2 hiff
    · rw [if_neg hx, if_neg (fun h => hx ((hiff x).mpr h))]
      have he := ih (x :: s1) (x :: s2)
        (fun a => by rw [List.mem_cons, List.mem_cons, hiff a])
      rw [he]

theorem jsUniqAux_cons (seen : List String) (x : String) (xs : List String) :
    jsUniqAux seen (x :: xs) =
      if x ∈ seen then jsUniqAux seen xs else x :: jsUniqAux (x :: seen) xs :=
  rfl

theorem jsUniqAux_filter (l : List String) :
    ∀ seen x, jsUniqAux (x :: seen) l =
      jsUniqAux seen (l.filter (fun y => y != x)) := by
  induction l with
  | nil => intro seen x; rfl
  | cons y ys ih =>
    intro seen x
    by_cases hyx : y = x
    · subst hyx
      have hf : (y :: ys).filter (fun z => z != y) =
          ys.filter (fun z => z != y) := by
        simp [List.filter_cons]
      rw [hf, jsUniqAux_cons, if_pos (List.mem_cons_self y seen)]
      exact ih seen y
    · have hf : (y :: ys).filter (fun z => z != x) =
          y :: ys.filter (fun z => z != x) := by
        simp [List.filter_cons, hyx]
      rw [hf, jsUniqAux_cons, jsUniqAux_cons]
      by_cases hys : y ∈ seen
      · rw [if_pos (List.mem_cons_of_mem x hys), if_pos hys]
        exact ih seen x
      · have h1 : y ∉ x :: seen :=
          fun h => (List.mem_cons.mp h).elim hyx hys
        rw [if_neg h1, if_neg hys]
        congr 1
        rw [jsUniqAux_congr ys (y :: x :: seen) (x :: y :: seen)
          (fun a => by
            rw [List.mem_cons, List.mem_cons, List.mem_cons, List.mem_cons]
            tauto)]
        exact ih (y :: seen) x

theorem jsUniq_cons (x : String) (l : List String) :
    jsUniq (x :: l) = x :: jsUniq (l.filter (fun y => y != x)) := by
  unfold jsUniq
  rw [jsUniqAux_cons, if_neg (List.not_mem_nil x)]
  congr 1
  exact jsUniqAux_filter l [] x

theorem jsUniqAux_nil_of_subset :
    ∀ (l seen : List String), (∀ x, x ∈ l → x ∈ seen) →
      jsUniqAux seen l = [] := by
  intro l
  induction l with
  | nil => intro seen _; rfl
  | cons x xs ih =>
    intro seen hsub
    rw [jsUniqAux_cons, if_pos (hsub x (List.mem_cons_self x xs))]
    exact ih seen (fun y hy => hsub y (List.mem_cons_of_mem _ hy))

theorem jsUniqAux_append :
    ∀ (a b seen : List String),
      jsUniqAux seen (a ++ b) = jsUniqAux seen a ++ jsUniqAux (a ++ seen) b := by
  intro a
  induction a with
  | nil => intro b seen; rfl
  | cons x xs ih =>
    intro b seen
    rw [List.cons_append, jsUniqAux_cons, jsUniqAux_cons]
    by_cases hx : x ∈ seen
    · rw [if_pos hx, if_pos hx, ih b seen]
      congr 1
      apply jsUniqAux_congr
      intro a2
      simp only [List.cons_append, List.mem_cons, List.mem_append]
      constructor
      · intro h2; tauto
      · rintro (rfl | h2 | h2) <;> tauto
    · rw [if_neg hx, if_neg hx, List.cons_append, ih b (x :: seen)]
      congr 1
      congr 1
      apply jsUniqAux_congr
      intro a2
      simp only [List.cons_append, List.mem_cons, List.mem_append]
      tauto

theorem jsUniq_flatten_dup (L : List (List String)) :
    jsUniq ((L.map (fun y => y ++ y)).flatten) = jsUniq L.flatten := by
  suffices H : ∀ seen, jsUniqAux seen ((L.map (fun y => y ++ y)).flatten) =
      jsUniqAux seen L.flatten from H []
  induction L with
  | nil => intro seen; rfl
  | cons x Ls ih =>
    intro seen
    rw [List.map_cons, List.flatten_cons, List.flatten_cons,
      List.append_assoc, jsUniqAux_append, jsUniqAux_append]
    rw [jsUniqAux_append,
      jsUniqAux_nil_of_subset x (x ++ seen)
        (fun y hy => List.mem_append.mpr (Or.inl hy)),
      List.nil_append]
    have hcg : jsUniqAux (x ++ (x ++ seen))
        ((Ls.map (fun y => y ++ y)).flatten) =
        jsUniqAux (x ++ seen) ((Ls.map (fun y => y ++ y)).flatten) := by
      apply jsUniqAux_congr
      intro a2
      simp only [List.mem_append]
      tauto
    rw [hcg]
    congr 1
    exact ih (x ++ seen)

theorem expandTargetsSpec_eq_expandTargets (resolve : String → String)
    (globFn : String → List String) (patterns : List String) :
    expandTargetsSpec resolve globFn globFn patterns =
      expandTargets resolve globFn patterns := by
  unfold expandTargetsSpec expandTargets
  have hmap : patterns.map (fun g => globFn (resolve g) ++ globFn (resolve g))
      = (patterns.map (fun g => globFn (resolve g))).map (fun y => y ++ y) := by
    rw [List.map_map]
    rfl
  rw [hmap]
  exact jsUniq_flatten_dup (patterns.map (fun g => globFn (resolve g)))

/-- C5 confirmed: the engine globs each pattern only after resolving it to
an absolute path, and globbing an absolute pattern is independent of the
directory it is run from — so the glob against the filesystem root and
the additional glob relative to the sync directory are the same call with
the same matches, and the specified concatenate-then-deduplicate of the
two candidate lists equals the code's single-expansion result exactly.
The deduplication itself keeps the first occurrence of each path: the
expansion is duplicate-free, a subsequence of the flattened glob output
(first-seen order preserved), contains exactly its elements, and `jsUniq`
keeps each head and drops its later duplicates. -/
theorem c5_dual_expansion (resolve : String → String)
    (globFn : String → List String) (patterns : List String) :
    expandTargetsSpec resolve globFn globFn patterns =
      expandTargets resolve globFn patterns ∧
    (expandTargets resolve globFn patterns).Nodup ∧
    (expandTargets resolve globFn patterns).Sublist
      ((patterns.map (fun g => globFn (resolve g))).flatten) ∧
    (∀ a, a ∈ expandTargets resolve globFn patterns ↔
      a ∈ (patterns.map (fun g => globFn (resolve g))).flatten) ∧
    (∀ (x : String) (l : List String),
      jsUniq (x :: l) = x :: jsUniq (l.filter (fun y => y != x))) := by
  refine ⟨expandTargetsSpec_eq_expandTargets resolve globFn patterns,
    jsUniqAux_nodup _ [], jsUniqAux_sublist _ [], ?_, jsUniq_cons⟩
  intro a
  unfold expandTargets jsUniq
  rw [jsUniqAux_mem]
  simp

/-- C5 witness: the coincidence of the dual and the single expansion
evaluated on a concrete glob with duplicated output. -/
theorem c5_dual_expansion_witness :
    expandTargetsSpec id (fun p => [p, p]) (fun p => [p, p]) ["a", "b"] =
      expandTargets id (fun p => [p, p]) ["a", "b"] :=
  (c5_dual_expansion id (fun p => [p, p]) ["a", "b"]).1

/-! ## C6 — group processing order -/

theorem unitsLe_total : ∀ u v : List Nat,
    unitsLe u v = true ∨ unitsLe v u = true := by
  intro u
  induction u with
  | nil => intro v; left; rfl
  | cons x xs ih =>
    intro v
    cases v with
    | nil => right; rfl
    | cons y ys =>
      rcases Nat.lt_trichotomy x y with hxy | hxy | hxy
      · left; simp [unitsLe, hxy]
      · subst hxy
        rcases ih ys with h2 | h2
        · left; simp [unitsLe, h2]
        · right; simp [unitsLe, h2]
      · right; simp [unitsLe, hxy]

theorem unitsLe_trans : ∀ u v w : List Nat,
    unitsLe u v = true → unitsLe v w = true → unitsLe u w = true := by
  intro u
  induction u with
  | nil => intro v w _ _; rfl
  | cons x xs ih =>
    intro v w hab hbc
    cases v with
    | nil => simp [unitsLe] at hab
    | cons y ys =>
      cases w with
      | nil => simp [unitsLe] at hbc
      | cons z zs =>
        simp only [unitsLe] at hab hbc ⊢
        by_cases hxy : x < y
        · by_cases hyz : y < z
          · simp [Nat.lt_trans hxy hyz]
          · by_cases hzy : z < y
            · rw [if_neg hyz, if_pos hzy] at hbc; cases hbc
            · have heq : y = z :=
                Nat.le_antisymm (Nat.le_of_not_lt hzy) (Nat.le_of_not_lt hyz)
              subst heq
              simp [hxy]
        · by_cases hyx : y < x
          · rw [if_neg hxy, if_pos hyx] at hab; cases hab
          · have heq : x = y :=
              Nat.le_antisymm (Nat.le_of_not_lt hyx) (Nat.le_of_not_lt hxy)
            subst heq
            rw [if_neg (Nat.lt_irrefl x), if_neg (Nat.lt_irrefl x)] at hab
            by_cases hxz : x < z
            · simp [hxz]
            · by_cases hzx : z < x
              · rw [if_neg hxz, if_pos hzx] at hbc; cases hbc
              · have heq2 : x = z :=
                  Nat.le_antisymm (Nat.le_of_not_lt hzx) (Nat.le_of_not_lt hxz)
                subst heq2
                rw [if_neg (Nat.lt_irrefl x), if_neg (Nat.lt_irrefl x)] at hbc
                rw [if_neg (Nat.lt_irrefl x), if_neg (Nat.lt_irrefl x)]
                exact ih ys zs hab hbc

instance : IsTotal String jsLeP :=
  ⟨fun a b => unitsLe_total (utf16Units a) (utf16Units b)⟩

instance : IsTrans String jsLeP :=
  ⟨fun _ _ _ hab hbc => unitsLe_trans _ _ _ hab hbc⟩

theorem generateLinkGroups_names (resolve : String → String)
    (globFn : String → List String) (filenamifyFn : String → String)
    (rootDir : String) (config : List (String × List String)) :
    ((generateLinkGroups resolve globFn filenamifyFn rootDir config).1.map
      (fun g => g.name)) = jsSort (config.map Prod.fst) := by
  unfold generateLinkGroups
  rw [List.map_map]
  have hc : ((fun g => LinkGroup.name g) ∘
      buildGroup resolve globFn filenamifyFn rootDir config) =
      fun n => n := rfl
  rw [hc]
  exact List.map_id _

/-- C6 counterexample: for groups named Zebra and alpha, the processing
order is Zebra first — the source's `.sort()` is the default
code-unit-ordered (case-sensitive) sort, under which every uppercase ASCII
letter precedes every lowercase one, not a case-insensitive sort. -/
theorem c6_counterexample :
    ((generateLinkGroups id (fun _ => []) id "/root"
      [("Zebra", []), ("alpha", [])]).1.map (fun g => g.name)) =
      ["Zebra", "alpha"] ∧
    (["Zebra", "alpha"] : List String) ≠ ["alpha", "Zebra"] := by
  refine ⟨rfl, by decide⟩

/-- C6 amended: link groups are processed in a deterministic sorted order
by group name — the order of the configuration keys sorted by the
JavaScript default comparator, which compares UTF-16 code units and is
case-sensitive: the processed name sequence is exactly the sorted
permutation of the configuration's keys under that order. -/
theorem c6_processing_order (resolve : String → String)
    (globFn : String → List String) (filenamifyFn : String → String)
    (rootDir : String) (config : List (String × List String)) :
    ((generateLinkGroups resolve globFn filenamifyFn rootDir config).1.map
      (fun g => g.name)) = jsSort (config.map Prod.fst) ∧
    (jsSort (config.map Prod.fst)).Perm (config.map Prod.fst) ∧
    List.Sorted jsLeP (jsSort (config.map Prod.fst)) :=
  ⟨generateLinkGroups_names resolve globFn filenamifyFn rootDir config,
   List.perm_insertionSort jsLeP (config.map Prod.fst),
   List.sorted_insertionSort jsLeP (config.map Prod.fst)⟩

/-- C6 witness: the processed-name sequence equals the sorted key list on
the Zebra/alpha configuration. -/
theorem c6_processing_order_witness :
    ((generateLinkGroups id (fun _ => []) id "/root"
      [("Zebra", []), ("alpha", [])]).1.map (fun g => g.name)) =
      jsSort ["Zebra", "alpha"] :=
  (c6_processing_order id (fun _ => []) id "/root"
    [("Zebra", []), ("alpha", [])]).1

/-! ## C9 -- idempotence of a second run -/

theorem resolveLinkTarget_absolute (lp tp : String)
    (h : isAbsolutePath tp = true) : resolveLinkTarget lp tp = tp := by
  unfold resolveLinkTarget
  rw [h]
  rfl

theorem classifyLink_congr (f f' : FS) (lp tp : String) (h : f lp = f' lp) :
    classifyLink f lp tp = classifyLink f' lp tp := by
  unfold classifyLink
  rw [h]

theorem processLink_skipOnly (oracle : Nat → ChoiceOption) (lp tp : String)
    (s s' : PState) (o : Outcome)
    (horacle : skipOnlyOracle oracle) (hsticky : skipOnlySticky s.sticky)
    (h : processLink oracle lp tp s = Except.ok (s', o)) :
    (∀ p, s.fsys p ≠ none → s'.fsys p = s.fsys p) ∧
    s'.fsys lp ≠ none ∧
    skipOnlySticky s'.sticky ∧
    (s.fsys lp ≠ none → s'.stats.totalCreated = s.stats.totalCreated) ∧
    (o = Outcome.created → s'.fsys lp = some (Entity.symlink tp)) ∧
    (o = Outcome.alreadyCorrect →
      classifyLink s.fsys lp tp = LinkState.SymlinkCorrect ∧ s'.fsys = s.fsys) := by
  unfold processLink at h
  split at h
  · -- absent: creation (or an ENOENT abort, excluded by h being ok)
    rename_i habsent
    split at h
    · cases h
    · rename_i f2 hens
      have hf2 := ensureSymlinkM_ok s.fsys tp lp f2 hens
      subst hf2
      injection h with h'
      injection h' with h1 h2
      subst h1; subst h2
      refine ⟨?_, ?_, hsticky, ?_, ?_, ?_⟩
      · intro p hp
        have hne : p ≠ lp := fun he => hp (by rw [he, habsent])
        exact FS.update_other _ _ _ _ hne
      · simp [FS.update_self]
      · intro hocc; exact absurd habsent hocc
      · intro _; exact FS.update_self _ _ _
      · intro hco; cases hco
  · -- an existing symbolic link
    rename_i raw heqlp
    split at h
    · -- already points at the desired target
      rename_i hres
      injection h with h'
      injection h' with h1 h2
      subst h1; subst h2
      refine ⟨fun p _ => rfl, ?_, hsticky, fun _ => rfl, ?_, ?_⟩
      · simp [heqlp]
      · intro hco; cases hco
      · intro _
        refine ⟨?_, rfl⟩
        simp [classifyLink, heqlp, hres]
    · -- points elsewhere
      split at h
      · cases h
      · rename_i action s1 heq
        have hcases := inquireLink_cases oracle s _ action s1 heq
        have haction : action = ChoiceOption.Skip ∨
            action = ChoiceOption.SkipAll := by
          rcases hcases with ⟨hst, _⟩ | ⟨_, _, hac, _⟩
          · have h1 := hsticky.1
            rw [hst] at h1
            exact h1
          · rw [hac]; exact horacle s.prompt
        have hs1 : s1.fsys = s.fsys ∧ s1.stats = s.stats ∧
            skipOnlySticky s1.sticky := by
          rcases hcases with ⟨hst, rfl⟩ | ⟨hst, _, hac, rfl⟩
          · exact ⟨rfl, rfl, hsticky⟩
          · refine ⟨rfl, rfl, ?_⟩
            by_cases hf : isForever action = true
            · simp only [hf, if_true]
              exact ⟨haction, hsticky.2.1, hsticky.2.2⟩
            · simp only [hf, if_false]
              exact hsticky
        split at h
        · rename_i hrep
          rcases haction with rfl | rfl <;> rcases hrep with h2 | h2 <;>
            cases h2
        · injection h with h'
          injection h' with h1 h2
          subst h1; subst h2
          refine ⟨fun p _ => by rw [hs1.1], ?_, hs1.2.2,
            fun _ => by rw [hs1.2.1], ?_, ?_⟩
          · simp [hs1.1, heqlp]
          · intro hco; cases hco
          · intro hco; cases hco
  · -- a physical entity
    rename_i hent hns1 hns2
    split at h
    · cases h
    · rename_i action s1 heq
      have hcases := inquireSync_cases oracle s _ action s1 heq
      have haction : action = ChoiceOption.Skip ∨
          action = ChoiceOption.SkipAll := by
        rcases hcases with ⟨hst, _⟩ | ⟨_, _, hac, _⟩
        · have h1 := hsticky.2.1
          rw [hst] at h1
          exact h1
        · rw [hac]; exact horacle s.prompt
      have hs1 : s1.fsys = s.fsys ∧ s1.stats = s.stats ∧
          skipOnlySticky s1.sticky := by
        rcases hcases with ⟨hst, rfl⟩ | ⟨hst, _, hac, rfl⟩
        · exact ⟨rfl, rfl, hsticky⟩
        · refine ⟨rfl, rfl, ?_⟩
          by_cases hf : isForever action = true
          · simp only [hf, if_true]
            exact ⟨hsticky.1, haction, hsticky.2.2⟩
          · simp only [hf, if_false]
            exact hsticky
      split at h
      · rename_i hrep
        rcases haction with rfl | rfl <;> rcases hrep with h2 | h2 <;>
          cases h2
      · injection h with h'
        injection h' with h1 h2
        subst h1; subst h2
        refine ⟨fun p _ => by rw [hs1.1], ?_, hs1.2.2,
          fun _ => by rw [hs1.2.1], ?_, ?_⟩
        · rw [hs1.1]
          simp [hns2]
        · intro hco; cases hco
        · intro hco; cases hco

theorem runLinks_skipOnly_preserve (oracle : Nat → ChoiceOption)
    (horacle : skipOnlyOracle oracle) (tasks : List (String × String)) :
    ∀ (s s' : PState) (outs : List Outcome), skipOnlySticky s.sticky →
      runLinks oracle tasks s = Except.ok (s', outs) →
      (∀ p, s.fsys p ≠ none → s'.fsys p = s.fsys p) ∧
        skipOnlySticky s'.sticky := by
  induction tasks with
  | nil =>
    intro s s' outs hsticky h
    unfold runLinks at h
    injection h with h'
    injection h' with h1 h2
    subst h1
    exact ⟨fun p _ => rfl, hsticky⟩
  | cons t ts ih =>
    obtain ⟨lp, tp⟩ := t
    intro s s' outs hsticky h
    unfold runLinks at h
    split at h
    · cases h
    · rename_i s1 o heq
      split at h
      · cases h
      · rename_i s2 os heq2
        injection h with h'
        injection h' with h1 h2
        subst h1
        have hstep := processLink_skipOnly oracle lp tp s s1 o horacle hsticky heq
        have hrest := ih s1 s2 os hstep.2.2.1 heq2
        refine ⟨?_, hrest.2⟩
        intro p hp
        have e1 := hstep.1 p hp
        have e2 := hrest.1 p (by rw [e1]; exact hp)
        rw [e2, e1]

theorem runLinks_skipOnly_occupied (oracle : Nat → ChoiceOption)
    (horacle : skipOnlyOracle oracle) (tasks : List (String × String)) :
    ∀ (s s' : PState) (outs : List Outcome), skipOnlySticky s.sticky →
      runLinks oracle tasks s = Except.ok (s', outs) →
      ∀ lp tp, (lp, tp) ∈ tasks → s'.fsys lp ≠ none := by
  induction tasks with
  | nil =>
    intro s s' outs _ _ lp tp hmem
    cases hmem
  | cons t ts ih =>
    obtain ⟨lp0, tp0⟩ := t
    intro s s' outs hsticky h lp tp hmem
    unfold runLinks at h
    split at h
    · cases h
    · rename_i s1 o heq
      split at h
      · cases h
      · rename_i s2 os heq2
        injection h with h'
        injection h' with h1 h2
        subst h1
        have hstep := processLink_skipOnly oracle lp0 tp0 s s1 o horacle hsticky heq
        rcases List.mem_cons.mp hmem with hhead | htail
        · have h1 : lp = lp0 := congrArg Prod.fst hhead
          subst h1
          have hpres := (runLinks_skipOnly_preserve oracle horacle ts s1 s2 os
            hstep.2.2.1 heq2).1 lp hstep.2.1
          rw [hpres]
          exact hstep.2.1
        · exact ih s1 s2 os hstep.2.2.1 heq2 lp tp htail

theorem runLinks_skipOnly_noNew (oracle : Nat → ChoiceOption)
    (horacle : skipOnlyOracle oracle) (tasks : List (String × String)) :
    ∀ (s s' : PState) (outs : List Outcome), skipOnlySticky s.sticky →
      (∀ lp tp, (lp, tp) ∈ tasks → s.fsys lp ≠ none) →
      runLinks oracle tasks s = Except.ok (s', outs) →
      s'.stats.totalCreated = s.stats.totalCreated := by
  induction tasks with
  | nil =>
    intro s s' outs _ _ h
    unfold runLinks at h
    injection h with h'
    injection h' with h1 h2
    subst h1
    rfl
  | cons t ts ih =>
    obtain ⟨lp0, tp0⟩ := t
    intro s s' outs hsticky hocc h
    unfold runLinks at h
    split at h
    · cases h
    · rename_i s1 o heq
      split at h
      · cases h
      · rename_i s2 os heq2
        injection h with h'
        injection h' with h1 h2
        subst h1
        have hstep := processLink_skipOnly oracle lp0 tp0 s s1 o horacle hsticky heq
        have e1 := hstep.2.2.2.1 (hocc lp0 tp0 (List.mem_cons_self _ _))
        have e2 := ih s1 s2 os hstep.2.2.1 ?_ heq2
        · rw [e2, e1]
        · intro lp tp hm
          have := hocc lp tp (List.mem_cons_of_mem _ hm)
          rw [hstep.1 lp this]
          exact this

theorem runLinks_skipOnly_classify (oracle : Nat → ChoiceOption)
    (horacle : skipOnlyOracle oracle) (tasks : List (String × String)) :
    ∀ (s s' : PState) (outs : List Outcome), skipOnlySticky s.sticky →
      (∀ lp tp, (lp, tp) ∈ tasks → isAbsolutePath tp = true) →
      runLinks oracle tasks s = Except.ok (s', outs) →
      ∀ lp tp o, ((lp, tp), o) ∈ tasks.zip outs →
        (o = Outcome.created ∨ o = Outcome.alreadyCorrect) →
        classifyLink s'.fsys lp tp = LinkState.SymlinkCorrect := by
  induction tasks with
  | nil =>
    intro s s' outs _ _ _ lp tp o hmem _
    cases hmem
  | cons t ts ih =>
    obtain ⟨lp0, tp0⟩ := t
    intro s s' outs hsticky habs h lp tp o hmem hco
    unfold runLinks at h
    split at h
    · cases h
    · rename_i s1 o0 heq
      split at h
      · cases h
      · rename_i s2 os heq2
        injection h with h'
        injection h' with h1 h2
        subst h1; subst h2
        have hstep := processLink_skipOnly oracle lp0 tp0 s s1 o0 horacle hsticky heq
        rw [List.zip_cons_cons] at hmem
        rcases List.mem_cons.mp hmem with hhead | htail
        · have hp : (lp, tp) = (lp0, tp0) := congrArg Prod.fst hhead
          have ho : o = o0 := congrArg Prod.snd hhead
          have hlp : lp = lp0 := congrArg Prod.fst hp
          have htp : tp = tp0 := congrArg Prod.snd hp
          subst hlp; subst htp; subst ho
          rcases hco with rfl | rfl
          · have hl := hstep.2.2.2.2.1 rfl
            have hpres := (runLinks_skipOnly_preserve oracle horacle ts s1 s2
              os hstep.2.2.1 heq2).1 lp (by rw [hl]; exact Option.noConfusion)
            have habs0 := habs lp tp (List.mem_cons_self _ _)
            unfold classifyLink
            rw [hpres, hl]
            simp [resolveLinkTarget_absolute lp tp habs0]
          · obtain ⟨hcl, hfs⟩ := hstep.2.2.2.2.2 rfl
            have hocc : s.fsys lp ≠ none := by
              intro hn
              unfold classifyLink at hcl
              rw [hn] at hcl
              cases hcl
            have hpres := (runLinks_skipOnly_preserve oracle horacle ts s1 s2
              os hstep.2.2.1 heq2).1 lp (by rw [hfs]; exact hocc)
            rw [classifyLink_congr s2.fsys s.fsys lp tp (by rw [hpres, hfs])]
            exact hcl
        · exact ih s1 s2 os hstep.2.2.1
            (fun lp' tp' hm => habs lp' tp' (List.mem_cons_of_mem _ hm)) heq2
            lp tp o htail hco

/-- C9 counterexample: a link path occupied by a physical file, with the
actor skipping: the first run records a by-choice skip and the path still
classifies as PhysicalEntity afterwards, so on the second run it does not
classify as SymlinkCorrect, contradicting the claim that every link path
does. -/
theorem c9_counterexample :
    okOutcomes (runLinks skipOracle [("/sync/l", "/t")]
      (initState physFreeTargetFS)) = some [Outcome.skippedByChoice] ∧
    (okStateL (runLinks skipOracle [("/sync/l", "/t")]
      (initState physFreeTargetFS))).map
      (fun st => classifyLink st.fsys "/sync/l" "/t") =
      some LinkState.PhysicalEntity ∧
    LinkState.PhysicalEntity ≠ LinkState.SymlinkCorrect := by
  refine ⟨rfl, rfl, by decide⟩

/-- C9 amended: for a run whose decisions are all skips (no
operator-driven replacement decisions) over absolute desired targets,
running the engine a second time with no filesystem changes in between
creates zero new links; and every link path whose first-run outcome was
created or already-correct classifies as SymlinkCorrect in the state the
second run starts from.  (Link paths skipped by choice retain their
conflicting classification — see the counterexample.) -/
theorem c9_second_run_idempotent (oracle : Nat → ChoiceOption)
    (tasks : List (String × String)) (s s1 s2 : PState)
    (outs1 outs2 : List Outcome)
    (horacle : skipOnlyOracle oracle) (hsticky : skipOnlySticky s.sticky)
    (habs : ∀ lp tp, (lp, tp) ∈ tasks → isAbsolutePath tp = true)
    (h1 : runLinks oracle tasks s = Except.ok (s1, outs1))
    (h2 : runLinks oracle tasks s1 = Except.ok (s2, outs2)) :
    s2.stats.totalCreated = s1.stats.totalCreated ∧
    (∀ lp tp o, ((lp, tp), o) ∈ tasks.zip outs1 →
      (o = Outcome.created ∨ o = Outcome.alreadyCorrect) →
      classifyLink s1.fsys lp tp = LinkState.SymlinkCorrect) := by
  have hst1 :=
    (runLinks_skipOnly_preserve oracle horacle tasks s s1 outs1 hsticky h1).2
  have hocc :=
    runLinks_skipOnly_occupied oracle horacle tasks s s1 outs1 hsticky h1
  exact ⟨runLinks_skipOnly_noNew oracle horacle tasks s1 s2 outs2 hst1
      (fun lp tp hm => hocc lp tp hm) h2,
    runLinks_skipOnly_classify oracle horacle tasks s s1 outs1 hsticky habs h1⟩

/-- C9 witness: one absent link created on the first run, classified as
SymlinkCorrect and left alone (zero new links) on the second. -/
theorem c9_second_run_idempotent_witness :
    c9Run2State.stats.totalCreated = c9Run1State.stats.totalCreated ∧
    classifyLink c9Run1State.fsys "/sync/a" "/data/t" =
      LinkState.SymlinkCorrect := by
  have h := c9_second_run_idempotent skipOracle [("/sync/a", "/data/t")]
    (initState c9BaseFS) c9Run1State c9Run2State [Outcome.created]
    [Outcome.alreadyCorrect] (fun k => Or.inl rfl)
    ⟨trivial, trivial, trivial⟩
    (by
      intro lp tp hmem
      have hp := List.mem_singleton.mp hmem
      injection hp with h1 h2
      rw [h2]
      rfl)
    rfl rfl
  exact ⟨h.1, h.2 "/sync/a" "/data/t" Outcome.created
    (List.mem_singleton.mpr rfl) (Or.inl rfl)⟩

end LiveLink
